import Mathlib

/-!
# A shallow embedding of the JSON core (`json.cpp` / `json.h` / `json_builder.cpp`)

The C++ sources implement a JSON value model (`json::Node`), a recursive
descent parser (`Load` and the `Load*` helpers), an indented printer
(`Print` / `PrintNode` / `PrintValue`), and a stack-based incremental
builder (`json::Builder`).

Modelling conventions:
* A C++ character stream is a `List Char`; reading consumes a prefix and
  the functions return the unread rest of the stream.
* `ParsingError` / `std::logic_error` are `Except.error` carrying the
  exact message strings of the source.
* The recursive-descent entry `LoadNode` and the loops of `LoadArray` /
  `LoadDict` are mutually recursive through a fuel parameter; the public
  `load` instantiates the fuel with a bound that is proved (and used)
  sufficient.
* C++ `int` is `Int` together with the explicit range check that
  `std::stoi` performs (`int` is 32-bit on every platform this code
  targets); `double` payloads are the exact decimal value of the
  literal, as a normalized `mant * 10 ^ ex` pair (`Dec10`).
  `std::stod` additionally rounds to binary64; every concrete double
  appearing in a theorem below is exactly representable in binary64, and
  no quantified theorem depends on the numeric value of a double payload.
* `std::map<std::string, Node>` is a key-sorted association list
  (`NodeDict`), with lexicographic key order as in `std::string::operator<`.
-/

set_option maxRecDepth 8000

namespace PayGo

/-- An exact decimal number `mant * 10 ^ ex`, the model of a C++ `double`
produced by `std::stod` from a JSON numeric literal.  Kept normalized
(`mant = 0 → ex = 0`, and `10 ∤ mant` otherwise), so that two `Dec10`
denote the same number exactly when they are structurally equal. -/
structure Dec10 where
  mant : Int
  ex : Int
deriving DecidableEq, Repr

/-- Strip factors of 10 out of the mantissa (fuelled, structurally
recursive so that the kernel can evaluate it). -/
def norm10Aux : Nat → Int → Int → Int × Int
  | 0, m, e => (m, e)
  | fuel + 1, m, e =>
    if m % 10 = 0 then norm10Aux fuel (m / 10) (e + 1) else (m, e)

/-- Build a normalized `Dec10` denoting `m * 10 ^ e`. -/
def Dec10.make (m e : Int) : Dec10 :=
  if m = 0 then ⟨0, 0⟩
  else
    let p := norm10Aux m.natAbs m e
    ⟨p.1, p.2⟩

mutual
/-- JSON values, after `json::Node`'s
`std::variant<std::nullptr_t, Array, Dict, bool, int, double, std::string>`.
`NodeList` is `Array = std::vector<Node>`, `NodeDict` is
`Dict = std::map<std::string, Node>` (kept sorted by key). -/
inductive Node where
  | null : Node
  | nbool (b : Bool) : Node
  | nint (n : Int) : Node
  | ndouble (d : Dec10) : Node
  | nstr (s : List Char) : Node
  | narr (xs : NodeList) : Node
  | ndict (d : NodeDict) : Node

inductive NodeList where
  | nil : NodeList
  | cons (hd : Node) (tl : NodeList) : NodeList

inductive NodeDict where
  | nil : NodeDict
  | cons (key : List Char) (val : Node) (tl : NodeDict) : NodeDict
end

/-- Lexicographic `<` on keys, after `std::string::operator<`
(`char_traits<char>::compare`, i.e. byte-wise). -/
def keyLt : List Char → List Char → Bool
  | [], [] => false
  | [], _ :: _ => true
  | _ :: _, [] => false
  | a :: as, b :: bs =>
    if a.toNat < b.toNat then true
    else if b.toNat < a.toNat then false
    else keyLt as bs

/-- `Dict::find(key) != end()`: membership of a key in the map. -/
def NodeDict.hasKey : NodeDict → List Char → Bool
  | .nil, _ => false
  | .cons k _ tl, key => if k = key then true else tl.hasKey key

/-- `std::map` insertion (`emplace` of an absent key): place the new entry
at its sorted position. -/
def NodeDict.insert : NodeDict → List Char → Node → NodeDict
  | .nil, key, v => .cons key v .nil
  | .cons k w tl, key, v =>
    if keyLt key k then .cons key v (.cons k w tl)
    else .cons k w (tl.insert key v)

/-- `operator[]` lookup on the map (used by `Builder::Key` via
`std::get<json::Dict>(current_value)[key]` when the key is present). -/
def NodeDict.find? : NodeDict → List Char → Option Node
  | .nil, _ => none
  | .cons k w tl, key => if k = key then some w else tl.find? key

/-- `std::map::operator[] = value` on a present key (overwrite in place). -/
def NodeDict.setKey : NodeDict → List Char → Node → NodeDict
  | .nil, _, _ => .nil
  | .cons k w tl, key, v =>
    if k = key then .cons k v tl else .cons k w (tl.setKey key v)

/-- C `isspace` in the default locale (the characters `std::istream`'s
`operator>>` skips). -/
def cIsSpace (c : Char) : Bool :=
  c = ' ' || c = '\t' || c = '\n' || c = '\x0b' || c = '\x0c' || c = '\r'

/-- C `isdigit`. -/
def cIsDigit (c : Char) : Bool :=
  '0'.toNat ≤ c.toNat && c.toNat ≤ '9'.toNat

/-- C `isalpha` in the default locale. -/
def cIsAlpha (c : Char) : Bool :=
  ('a'.toNat ≤ c.toNat && c.toNat ≤ 'z'.toNat) ||
  ('A'.toNat ≤ c.toNat && c.toNat ≤ 'Z'.toNat)

/-- The whitespace skipping done by formatted extraction `input >> c`. -/
def skipWs : List Char → List Char
  | [] => []
  | c :: cs => if cIsSpace c then skipWs cs else c :: cs

/-- Parse results: either a `ParsingError` message, or a value and the
unread rest of the stream. -/
abbrev ParseRes (α : Type) := Except String (α × List Char)

/-- `LoadString` (`json.cpp`): consume characters up to the closing
unescaped `"`; decode the escapes `\n \t \r \" \\`; any other escape,
a raw newline/carriage return, or end of input are `ParsingError`s. -/
def loadString : List Char → ParseRes (List Char)
  | [] => .error "String parsing error"
  | c :: cs =>
    if c = '"' then .ok ([], cs)
    else if c = '\\' then
      match cs with
      | [] => .error "String parsing error"
      | e :: cs' =>
        if e = 'n' then (loadString cs').map (fun (s, r) => ('\n' :: s, r))
        else if e = 't' then (loadString cs').map (fun (s, r) => ('\t' :: s, r))
        else if e = 'r' then (loadString cs').map (fun (s, r) => ('\r' :: s, r))
        else if e = '"' then (loadString cs').map (fun (s, r) => ('"' :: s, r))
        else if e = '\\' then (loadString cs').map (fun (s, r) => ('\\' :: s, r))
        else .error ("Unrecognized escape sequence \\" ++ String.mk [e])
    else if c = '\n' || c = '\r' then .error "Unexpected end of line"
    else (loadString cs).map (fun (s, r) => (c :: s, r))

/-- `LoadLiteral`: the maximal alphabetic prefix of the stream. -/
def loadLiteral (input : List Char) : List Char × List Char :=
  match input with
  | [] => ([], [])
  | c :: cs =>
    if cIsAlpha c then
      let (s, r) := loadLiteral cs
      (c :: s, r)
    else ([], c :: cs)

/-- `LoadBool`: the literal must be exactly `true` or `false`. -/
def loadBool (input : List Char) : ParseRes Node :=
  let (s, r) := loadLiteral input
  if s = "true".toList then .ok (.nbool true, r)
  else if s = "false".toList then .ok (.nbool false, r)
  else .error ("Failed to parse '" ++ String.mk s ++ "' as bool")

/-- `LoadNull`: the literal must be exactly `null`. -/
def loadNull (input : List Char) : ParseRes Node :=
  let (s, r) := loadLiteral input
  if s = "null".toList then .ok (.null, r)
  else .error ("Failed to parse '" ++ String.mk s ++ "' as null")

/-- `read_digits` inside `LoadNumber`: one or more digits, else the
`ParsingError` "A digit is expected". -/
def readDigits (input : List Char) : ParseRes (List Char) :=
  let ds := input.takeWhile cIsDigit
  if ds.isEmpty then .error "A digit is expected"
  else .ok (ds, input.dropWhile cIsDigit)

/-- The accumulation `std::stoi` / `std::stod` perform on a digit string. -/
def digitsVal (ds : List Char) : Nat :=
  ds.foldl (fun a c => 10 * a + (c.toNat - '0'.toNat)) 0

/-- `INT_MIN` for the 32-bit `int` that `std::stoi` returns. -/
def stoiMin : Int := -(2 ^ 31)

/-- `INT_MAX` for the 32-bit `int` that `std::stoi` returns. -/
def stoiMax : Int := 2 ^ 31 - 1

/-- The exponent part of a numeric token: the `e`/`E` actually read, the
optional explicit sign character, and the exponent digits. -/
structure ExpPart where
  echar : Char
  esign : Option Char
  edigits : List Char
deriving DecidableEq, Repr

/-- The exact text `parsed_num` accumulated by `LoadNumber` (used in the
"Failed to convert ... to number" message). -/
def numToken (neg : Bool) (ipart : List Char) (fpart : Option (List Char))
    (epart : Option ExpPart) : List Char :=
  (if neg then ['-'] else []) ++ ipart ++
  (match fpart with | some f => '.' :: f | none => []) ++
  (match epart with
   | some p => p.echar :: ((match p.esign with | some s => [s] | none => []) ++ p.edigits)
   | none => [])

/-- The signed value of an integer-shaped token (what `std::stoi` computes
when it does not overflow). -/
def intShapedVal (neg : Bool) (ipart : List Char) : Int :=
  (if neg then -1 else 1) * (digitsVal ipart : Int)

/-- The exact decimal value of the full token (what `std::stod` computes,
up to binary64 rounding, which is not modelled). -/
def decVal (neg : Bool) (ipart : List Char) (fpart : Option (List Char))
    (epart : Option ExpPart) : Dec10 :=
  let fds := fpart.getD []
  let m : Int := (if neg then -1 else 1) * (digitsVal (ipart ++ fds) : Int)
  let e : Int :=
    (match epart with
     | none => 0
     | some p => (if p.esign = some '-' then -1 else 1) * (digitsVal p.edigits : Int))
    - fds.length
  Dec10.make m e

/-- The range in which `std::stod` succeeds: it raises `std::out_of_range`
(reported by `LoadNumber` as "Failed to convert ... to number") when the
result overflows to infinity or underflows to a subnormal.  The overflow
and underflow boundaries are taken at `2 ^ 1024` and `2 ^ -1022`; the
half-ulp slack of the true rounding boundaries is not modelled (no theorem
below evaluates near them). -/
def stodInRange (d : Dec10) : Bool :=
  if d.mant = 0 then true
  else
    (if d.ex ≥ 0 then
      d.mant.natAbs * 10 ^ d.ex.toNat < 2 ^ 1024
     else
      d.mant.natAbs < 2 ^ 1024 * 10 ^ (-d.ex).toNat) &&
    (if d.ex ≥ 0 then true
     else 2 ^ 1022 * d.mant.natAbs ≥ 10 ^ (-d.ex).toNat)

/-- The conversion step at the end of `LoadNumber`: an integer-shaped
token through `std::stoi` first, falling back to `std::stod` when the
value is outside `int` range; a token with a fraction or exponent part
directly through `std::stod`. -/
def numConvert (neg : Bool) (ipart : List Char) (fpart : Option (List Char))
    (epart : Option ExpPart) (rest : List Char) : ParseRes Node :=
  let tok := String.mk (numToken neg ipart fpart epart)
  let stodStep : ParseRes Node :=
    let d := decVal neg ipart fpart epart
    if stodInRange d then .ok (.ndouble d, rest)
    else .error ("Failed to convert " ++ tok ++ " to number")
  if fpart = none ∧ epart = none then
    let v := intShapedVal neg ipart
    if stoiMin ≤ v ∧ v ≤ stoiMax then .ok (.nint v, rest)
    else stodStep
  else stodStep

/-- The leading-minus step of `LoadNumber` (`input.peek() == '-'`). -/
def numISign (input : List Char) : Bool × List Char :=
  match input with
  | [] => (false, [])
  | c :: t => if c = '-' then (true, t) else (false, c :: t)

/-- The integer-part step of `LoadNumber`: a lone `0`, or one or more
digits. -/
def numIPart (i1 : List Char) : ParseRes (List Char) :=
  match i1 with
  | [] => readDigits []
  | c :: t => if c = '0' then .ok (['0'], t) else readDigits (c :: t)

/-- The fraction step of `LoadNumber`: `.` followed by digits, or
nothing. -/
def numFPart (i2 : List Char) : ParseRes (Option (List Char)) :=
  match i2 with
  | [] => .ok (none, [])
  | c :: t =>
    if c = '.' then (readDigits t).map (fun p => (some p.1, p.2))
    else .ok (none, c :: t)

/-- The exponent step of `LoadNumber`: `e`/`E`, an optional sign, and
digits, or nothing. -/
def numEPart (i3 : List Char) : ParseRes (Option ExpPart) :=
  match i3 with
  | [] => .ok (none, [])
  | c :: t =>
    if c = 'e' ∨ c = 'E' then
      let s2 : Option Char × List Char :=
        match t with
        | [] => (none, [])
        | c2 :: u =>
          if c2 = '+' then (some '+', u)
          else if c2 = '-' then (some '-', u)
          else (none, c2 :: u)
      (readDigits s2.2).map (fun p => (some ⟨c, s2.1, p.1⟩, p.2))
    else .ok (none, c :: t)

/-- `LoadNumber` (`json.cpp`): lex
`-? (0 | [0-9]+) (.[0-9]+)? ([eE][+-]?[0-9]+)?` — after a leading `0` no
further integer-part digits are consumed — then convert. -/
def loadNumber (input : List Char) : ParseRes Node :=
  let s1 := numISign input
  match numIPart s1.2 with
  | .error e => .error e
  | .ok (ipart, i2) =>
    match numFPart i2 with
    | .error e => .error e
    | .ok (fpart, i3) =>
      match numEPart i3 with
      | .error e => .error e
      | .ok (epart, i4) => numConvert s1.1 ipart fpart epart i4

mutual
/-- `LoadNode` (`json.cpp`): skip whitespace, dispatch on the first
character; `t`/`f`/`n` and number starts are put back for the helper. -/
def loadNode : Nat → List Char → ParseRes Node
  | 0, _ => .error "Out of fuel"
  | fuel + 1, input =>
    match skipWs input with
    | [] => .error "Unexpected EOF"
    | c :: cs =>
      if c = '[' then (loadArr fuel cs).map (fun (xs, r) => (Node.narr xs, r))
      else if c = '{' then (loadDict fuel .nil cs).map (fun (d, r) => (Node.ndict d, r))
      else if c = '"' then (loadString cs).map (fun (s, r) => (Node.nstr s, r))
      else if c = 't' ∨ c = 'f' then loadBool (c :: cs)
      else if c = 'n' then loadNull (c :: cs)
      else loadNumber (c :: cs)

/-- The element loop of `LoadArray`: read a character (skipping
whitespace); `]` closes the array; a `,` is dropped, anything else is put
back; then one element is parsed and the loop continues.  Premature end of
input is the `ParsingError` "Array parsing error". -/
def loadArr : Nat → List Char → ParseRes NodeList
  | 0, _ => .error "Out of fuel"
  | fuel + 1, input =>
    match skipWs input with
    | [] => .error "Array parsing error"
    | c :: cs =>
      if c = ']' then .ok (.nil, cs)
      else
        match loadNode fuel (if c = ',' then cs else c :: cs) with
        | .error e => .error e
        | .ok (n, r) =>
          match loadArr fuel r with
          | .error e => .error e
          | .ok (xs, r') => .ok (.cons n xs, r')

/-- The pair loop of `LoadDict`: `}` closes the object; `"` starts a key,
after which a `:` is required, the key must not already be present
("Duplicate key ..."), and the value is parsed; a `,` is skipped; any
other character is the `ParsingError` "',' is expected ...".  Premature
end of input is "Dictionary parsing error".  (On end of input where `:`
was expected, the message quotes the `"` still held in `c`.) -/
def loadDict : Nat → NodeDict → List Char → ParseRes NodeDict
  | 0, _, _ => .error "Out of fuel"
  | fuel + 1, acc, input =>
    match skipWs input with
    | [] => .error "Dictionary parsing error"
    | c :: cs =>
      if c = '}' then .ok (acc, cs)
      else if c = '"' then
        match loadString cs with
        | .error e => .error e
        | .ok (key, r) =>
          match skipWs r with
          | [] => .error ": is expected but '\"' has been found"
          | c2 :: r2 =>
            if c2 = ':' then
              if acc.hasKey key then
                .error ("Duplicate key '" ++ String.mk key ++ "' have been found")
              else
                match loadNode fuel r2 with
                | .error e => .error e
                | .ok (v, r3) => loadDict fuel (acc.insert key v) r3
            else .error (": is expected but '" ++ String.mk [c2] ++ "' has been found")
      else if c = ',' then loadDict fuel acc cs
      else .error ("',' is expected but '" ++ String.mk [c] ++ "' has been found")
end

/-- `Load` (`json.cpp`): parse one value from the stream (`Document` is a
bare wrapper around the root `Node`, so it is elided).  The stream is not
required to be exhausted.  The fuel is large enough for any input (each
unit of nesting consumes input). -/
def load (input : List Char) : Except String Node :=
  (loadNode (2 * input.length + 2) input).map (fun p => p.1)

/-- `load` on a Lean string literal. -/
def loadStr (s : String) : Except String Node := load s.toList

/-- The character for a single decimal digit. -/
def digitChar (d : Nat) : Char := Char.ofNat ('0'.toNat + d)

/-- Decimal digits of a natural number, most significant first (fuelled so
that the kernel can evaluate it; `natToChars` supplies ample fuel). -/
def natToCharsAux : Nat → Nat → List Char → List Char
  | 0, _, acc => acc
  | fuel + 1, n, acc =>
    if n < 10 then digitChar n :: acc
    else natToCharsAux fuel (n / 10) (digitChar (n % 10) :: acc)

/-- Decimal digits of a natural number (`operator<<` on an unsigned value). -/
def natToChars (n : Nat) : List Char := natToCharsAux (n + 1) n []

/-- `operator<<(std::ostream&, int)`: decimal text with a `-` sign. -/
def intToChars (i : Int) : List Char :=
  if i < 0 then '-' :: natToChars i.natAbs else natToChars i.natAbs

/-- Drop trailing `'0'` characters. -/
def stripZeros (l : List Char) : List Char :=
  (l.reverse.dropWhile (fun c => c = '0')).reverse

/-- Increment a reversed digit string by one (carry propagation). -/
def incDigitsRev : List Char → List Char
  | [] => ['1']
  | c :: t => if c = '9' then '0' :: incDigitsRev t else Char.ofNat (c.toNat + 1) :: t

/-- Increment a digit string by one. -/
def incDigits (l : List Char) : List Char := (incDigitsRev l.reverse).reverse

/-- Whether rounding a digit string at a cut (kept digits `d6`, discarded
digits `rest`) rounds up: round to nearest, exact ties to even. -/
def roundUpDecision (d6 rest : List Char) : Bool :=
  match rest with
  | [] => false
  | r0 :: rrest =>
    if '5'.toNat < r0.toNat then true
    else if r0.toNat < '5'.toNat then false
    else if rrest.any (fun c => c ≠ '0') then true
    else digitsVal d6 % 2 = 1

/-- Round a digit string to six significant digits, adjusting the decimal
exponent when the carry lengthens the string; short strings are padded
with zeros. -/
def round6 (ds : List Char) (x : Int) : List Char × Int :=
  if ds.length ≤ 6 then (ds ++ List.replicate (6 - ds.length) '0', x)
  else
    let d6 := ds.take 6
    let d6' := if roundUpDecision d6 (ds.drop 6) then incDigits d6 else d6
    if d6'.length = 7 then (d6'.take 6, x + 1) else (d6', x)

/-- Default-format `operator<<(std::ostream&, double)`: `printf` `%g` with
precision 6 — six significant digits, fixed notation when the decimal
exponent is in `[-4, 5]`, scientific notation (two-digit minimum exponent
field) otherwise, trailing zeros and a bare decimal point removed.
Evaluated on the exact decimal value; the double's binary64 rounding
(a below-six-significant-digits effect) is not modelled. -/
def printDouble (d : Dec10) : List Char :=
  if d.mant = 0 then ['0']
  else
    let ds := natToChars d.mant.natAbs
    let p := round6 ds ((ds.length : Int) - 1 + d.ex)
    let sig := p.1
    let x := p.2
    let sign : List Char := if d.mant < 0 then ['-'] else []
    if x < -4 ∨ 6 ≤ x then
      let frac := stripZeros (sig.drop 1)
      let eAbs := natToChars x.natAbs
      sign ++ sig.take 1 ++ (if frac.isEmpty then [] else '.' :: frac) ++
        ['e', if x < 0 then '-' else '+'] ++
        (if eAbs.length < 2 then '0' :: eAbs else eAbs)
    else if 0 ≤ x then
      let fp := stripZeros (sig.drop (x.toNat + 1))
      sign ++ sig.take (x.toNat + 1) ++ (if fp.isEmpty then [] else '.' :: fp)
    else
      sign ++ ['0', '.'] ++ List.replicate ((-x).toNat - 1) '0' ++ stripZeros sig

/-- The escaping loop of `PrintString` (`json.cpp`): `\r \n \t " \` become
two-character escapes, everything else is written unchanged. -/
def escapeChars : List Char → List Char
  | [] => []
  | c :: t =>
    (if c = '\r' then ['\\', 'r']
     else if c = '\n' then ['\\', 'n']
     else if c = '\t' then ['\\', 't']
     else if c = '"' then ['\\', '"']
     else if c = '\\' then ['\\', '\\']
     else [c]) ++ escapeChars t

/-- `PrintString`: the escaped text wrapped in quotes. -/
def printString (s : List Char) : List Char := '"' :: (escapeChars s ++ ['"'])

mutual
/-- `PrintNode` / `PrintValue` (`json.cpp`) under a `PrintContext` with
step `step` and current indent `indent`. -/
def printNode (step indent : Nat) : Node → List Char
  | .null => "null".toList
  | .nbool b => if b then "true".toList else "false".toList
  | .nint n => intToChars n
  | .ndouble d => printDouble d
  | .nstr s => printString s
  | .narr xs =>
    '[' :: '\n' :: (printArrItems step (step + indent) true xs ++
      '\n' :: (List.replicate indent ' ' ++ [']']))
  | .ndict d =>
    '{' :: '\n' :: (printDictItems step (step + indent) true d ++
      '\n' :: (List.replicate indent ' ' ++ ['}']))

/-- The element loop of `PrintValue<Array>`: `",\n"` before every element
but the first, then the inner indent, then the element. -/
def printArrItems (step indent : Nat) (first : Bool) : NodeList → List Char
  | .nil => []
  | .cons h t =>
    (if first then [] else [',', '\n']) ++ List.replicate indent ' ' ++
      printNode step indent h ++ printArrItems step indent false t

/-- The entry loop of `PrintValue<Dict>`: separator, inner indent, the
key through `PrintString`, `": "`, the value. -/
def printDictItems (step indent : Nat) (first : Bool) : NodeDict → List Char
  | .nil => []
  | .cons k v t =>
    (if first then [] else [',', '\n']) ++ List.replicate indent ' ' ++
      printString k ++ [':', ' '] ++ printNode step indent v ++
      printDictItems step indent false t
end

/-- `Print` (`json.cpp`): print the root with the default context
(`indent_step = 4`, `indent = 0`). -/
def printDoc (v : Node) : List Char := printNode 4 0 v

/-- Element access in an `Array` (`std::vector<Node>`). -/
def NodeList.get? : NodeList → Nat → Option Node
  | .nil, _ => none
  | .cons h _, 0 => some h
  | .cons _ t, i + 1 => t.get? i

/-- In-place update of one element of an `Array`. -/
def NodeList.set : NodeList → Nat → Node → NodeList
  | .nil, _, _ => .nil
  | .cons _ t, 0, v => .cons v t
  | .cons h t, i + 1, v => .cons h (t.set i v)

/-- `std::vector::size`. -/
def NodeList.length : NodeList → Nat
  | .nil => 0
  | .cons _ t => t.length + 1

/-- `std::vector::emplace_back`. -/
def NodeList.append : NodeList → Node → NodeList
  | .nil, v => .cons v .nil
  | .cons h t, v => .cons h (t.append v)

/-- One step of a pointer path into a `Node` tree: a C++ `Node*` held in
`Builder::nodes_stack_` is modelled as the access path from the root. -/
inductive Step where
  | inArr (i : Nat) : Step
  | inDict (k : List Char) : Step
deriving DecidableEq, Repr

/-- Dereference a path. -/
def getPath : Node → List Step → Option Node
  | n, [] => some n
  | .narr xs, .inArr i :: p =>
    match xs.get? i with
    | some c => getPath c p
    | none => none
  | .ndict d, .inDict k :: p =>
    match d.find? k with
    | some c => getPath c p
    | none => none
  | _, _ => none

/-- Write through a path (`none` when the path dangles, which never
happens in a reachable builder state). -/
def setPath : Node → List Step → Node → Option Node
  | _, [], v => some v
  | .narr xs, .inArr i :: p, v =>
    match xs.get? i with
    | some c => (setPath c p v).map (fun c' => .narr (xs.set i c'))
    | none => none
  | .ndict d, .inDict k :: p, v =>
    match d.find? k with
    | some c => (setPath c p v).map (fun c' => .ndict (d.setKey k c'))
    | none => none
  | _, _, _ => none

/-- `json::Builder`'s data: `root_` and `nodes_stack_` (a vector of
`Node*`, top last; modelled top-first as paths from the root). -/
structure Builder where
  root : Node
  stack : List (List Step)

/-- `Builder::Builder()`: null root, stack holding `&root_`. -/
def Builder.init : Builder := ⟨.null, [[]]⟩

/-- `Builder::GetCurValue`: the node the stack top points at; throws
"Cannot modify - JSON object is already finished" on an empty stack. -/
def Builder.GetCurValue (b : Builder) : Except String Node :=
  match b.stack with
  | [] => .error "Cannot modify - JSON object is already finished"
  | p :: _ =>
    match getPath b.root p with
    | some v => .ok v
    | none => .error "invalid node pointer"

/-- `Builder::AddObject(value, is_single_value)`: append to the current
array (pushing the new slot when a container is being opened), or fill the
current null slot (popping it when a single value was stored); a filled
non-array slot is the error "Cannot set value - current object is not
empty". -/
def Builder.AddObject (value : Node) (isSingle : Bool) (b : Builder) :
    Except String Builder :=
  match b.stack with
  | [] => .error "Cannot modify - JSON object is already finished"
  | p :: rest =>
    match getPath b.root p with
    | none => .error "invalid node pointer"
    | some cur =>
      match cur with
      | .narr xs =>
        match setPath b.root p (.narr (xs.append value)) with
        | none => .error "invalid node pointer"
        | some root' =>
          if isSingle then .ok ⟨root', p :: rest⟩
          else .ok ⟨root', (p ++ [.inArr xs.length]) :: (p :: rest)⟩
      | .null =>
        match setPath b.root p value with
        | none => .error "invalid node pointer"
        | some root' =>
          if isSingle then .ok ⟨root', rest⟩ else .ok ⟨root', p :: rest⟩
      | _ => .error "Cannot set value - current object is not empty"

/-- `Builder::StartDict`. -/
def Builder.StartDict (b : Builder) : Except String Builder :=
  Builder.AddObject (.ndict .nil) false b

/-- `Builder::StartArray`. -/
def Builder.StartArray (b : Builder) : Except String Builder :=
  Builder.AddObject (.narr .nil) false b

/-- `Builder::Value`. -/
def Builder.Value (v : Node) (b : Builder) : Except String Builder :=
  Builder.AddObject v true b

/-- `Builder::EndDict`: the current value must hold a `Dict`; pop. -/
def Builder.EndDict (b : Builder) : Except String Builder :=
  match b.stack with
  | [] => .error "Cannot modify - JSON object is already finished"
  | p :: rest =>
    match getPath b.root p with
    | none => .error "invalid node pointer"
    | some (.ndict _) => .ok ⟨b.root, rest⟩
    | some _ => .error "Cannot end dict - current value is not a dictionary"

/-- `Builder::EndArray`: the current value must hold an `Array`; pop. -/
def Builder.EndArray (b : Builder) : Except String Builder :=
  match b.stack with
  | [] => .error "Cannot modify - JSON object is already finished"
  | p :: rest =>
    match getPath b.root p with
    | none => .error "invalid node pointer"
    | some (.narr _) => .ok ⟨b.root, rest⟩
    | some _ => .error "Cannot end array - current value is not an array"

/-- `Builder::Key`: the current value must hold a `Dict`;
`dict[key]` (inserting a null entry when the key is absent, reusing the
existing entry otherwise) is pushed onto the stack. -/
def Builder.Key (k : List Char) (b : Builder) : Except String Builder :=
  match b.stack with
  | [] => .error "Cannot modify - JSON object is already finished"
  | p :: rest =>
    match getPath b.root p with
    | none => .error "invalid node pointer"
    | some (.ndict d) =>
      if d.hasKey k then .ok ⟨b.root, (p ++ [.inDict k]) :: (p :: rest)⟩
      else
        match setPath b.root p (.ndict (d.insert k .null)) with
        | none => .error "invalid node pointer"
        | some root' => .ok ⟨root', (p ++ [.inDict k]) :: (p :: rest)⟩
    | some _ => .error "Cannot use Key() - current object is not a dictionary"

/-- `Builder::Build`: only legal once the stack is fully unwound. -/
def Builder.Build (b : Builder) : Except String Node :=
  match b.stack with
  | [] => .ok b.root
  | _ :: _ => .error "Cannot build JSON - object is not finished"

/-- Chain a builder operation after a possibly-failed prefix of
operations (exception propagation in the C++ call chain). -/
def bstep (f : Builder → Except String Builder) (s : Except String Builder) :
    Except String Builder :=
  s.bind f

mutual
/-- No `Double` case anywhere in the value (the printer renders doubles
through default stream formatting, which loses the case distinction). -/
def doubleFree : Node → Bool
  | .ndouble _ => false
  | .narr xs => doubleFreeL xs
  | .ndict d => doubleFreeD d
  | _ => true

/-- `doubleFree` over an `Array`. -/
def doubleFreeL : NodeList → Bool
  | .nil => true
  | .cons h t => doubleFree h && doubleFreeL t

/-- `doubleFree` over a `Dict`. -/
def doubleFreeD : NodeDict → Bool
  | .nil => true
  | .cons _ v t => doubleFree v && doubleFreeD t
end

mutual
/-- Grammar-constructible values: every `int` payload is within the
32-bit `int` range (a parsed `Int` comes from `std::stoi`), and every
`Dict` is strictly key-sorted (the `std::map` invariant). -/
def wfNode : Node → Bool
  | .nint n => decide (stoiMin ≤ n ∧ n ≤ stoiMax)
  | .narr xs => wfNodeL xs
  | .ndict d => wfNodeD d
  | _ => true

/-- `wfNode` over an `Array`. -/
def wfNodeL : NodeList → Bool
  | .nil => true
  | .cons h t => wfNode h && wfNodeL t

/-- `wfNode` over a `Dict`: entries well-formed and keys strictly
increasing. -/
def wfNodeD : NodeDict → Bool
  | .nil => true
  | .cons k v t =>
    wfNode v && wfNodeD t &&
    (match t with
     | .nil => true
     | .cons k' _ _ => keyLt k k')
end

mutual
/-- Parser fuel sufficient for a value's printed form. -/
def fuelNode : Node → Nat
  | .narr xs => fuelNodeL xs + 2
  | .ndict d => fuelNodeD d + 2
  | _ => 1

/-- Fuel for an array's element list. -/
def fuelNodeL : NodeList → Nat
  | .nil => 0
  | .cons h t => fuelNode h + fuelNodeL t + 1

/-- Fuel for an object's entry list. -/
def fuelNodeD : NodeDict → Nat
  | .nil => 0
  | .cons _ v t => fuelNode v + fuelNodeD t + 1
end

/-- Concatenation of dictionaries (association lists). -/
def NodeDict.appendD : NodeDict → NodeDict → NodeDict
  | .nil, d2 => d2
  | .cons k v t, d2 => .cons k v (t.appendD d2)

/-- Every key of the dictionary is `keyLt`-below `k`. -/
def NodeDict.allLt : NodeDict → List Char → Prop
  | .nil, _ => True
  | .cons ka _ t, k => keyLt ka k = true ∧ t.allLt k

/-- The accumulated entries sit strictly below the first key yet to be
inserted (the `LoadDict` loop invariant for a sorted printed object). -/
def ndBelow (acc : NodeDict) : NodeDict → Prop
  | .nil => True
  | .cons k _ _ => acc.allLt k

/-- A follower stream that cannot extend the token just read: empty, or
starting with a character that is not a digit, not alphabetic and not a
decimal point (`,`, `\n`, `]`, `}` in printed output). -/
def goodStop : List Char → Prop
  | [] => True
  | c :: _ => cIsDigit c = false ∧ cIsAlpha c = false ∧ c ≠ '.'

/-! ## Claims -/

/-- **C2, counterexample.** The claim says printing `Double(3.0)` does not
produce the text `3`.  It does: `"3.0"` parses to the double 3.0 (so the
value is grammar-constructible), and the printer — the generic
`PrintValue` writing a `double` with default stream formatting — renders
it as the bare integer literal `3`, exactly the text of `Int 3`. -/
theorem C2_counterexample :
    loadStr "3.0" = .ok (.ndouble ⟨3, 0⟩) ∧
    printDoc (.ndouble ⟨3, 0⟩) = "3".toList ∧
    printDoc (.nint 3) = "3".toList :=
  ⟨rfl, rfl, rfl⟩

/-- **C2, amended.** `PrintValue` writes a `double` with default
`ostream` formatting (`%g`, six significant digits), so a `Double` whose
six-digit rendering has no fractional digits is printed as a bare integer
literal: `Double(3.0)` prints as `3`, and the Int/Double case distinction
is not preserved on output. -/
theorem C2_amended :
    printDoc (.ndouble ⟨3, 0⟩) = "3".toList ∧
    printDoc (.ndouble ⟨3, 0⟩) = printDoc (.nint 3) := ⟨rfl, rfl⟩

/-- **C3, counterexample.** The claim says an integer-shaped literal
whose value fits the signed 64-bit range yields an `Int`.  The code
converts with `std::stoi`, whose range is the 32-bit `int`: the literal
`2147483648` (= 2^31, far inside the 64-bit range) already overflows it
and yields a `Double`, not an `Int`. -/
theorem C3_counterexample :
    loadStr "2147483648" = .ok (.ndouble ⟨2147483648, 0⟩) ∧
    (2147483648 : Int) ≤ 2 ^ 63 - 1 :=
  ⟨rfl, by decide⟩

/-- **C4, counterexample.** The claim says a second `Key("a")` on an open
object that already maps `"a"` fails with an error.  It does not: after
`StartDict; Key("a"); Value(1)`, calling `Key("a")` again succeeds —
`dict[key]` simply returns the existing entry, whose address is pushed. -/
theorem C4_counterexample :
    bstep (Builder.Key ['a'])
      (bstep (Builder.Value (.nint 1))
        (bstep (Builder.Key ['a']) (Builder.StartDict Builder.init))) =
    .ok ⟨.ndict (.cons ['a'] (.nint 1) .nil), [[.inDict ['a']], []]⟩ := rfl

/-- **C4, amended.** A duplicate `Key("a")` itself succeeds, pushing a
pointer to the existing entry; the failure comes one call later: the
subsequent `Value` finds the slot non-null and fails with "Cannot set
value - current object is not empty", leaving the stored entry
unchanged. -/
theorem C4_amended :
    bstep (Builder.Value (.nint 2))
      (bstep (Builder.Key ['a'])
        (bstep (Builder.Value (.nint 1))
          (bstep (Builder.Key ['a']) (Builder.StartDict Builder.init)))) =
    .error "Cannot set value - current object is not empty" := rfl

/-- **C5, counterexample.** The claim says a numeric literal `01` is
rejected.  It is not: `LoadNumber` consumes exactly the single `0`
(`Load` does not require the stream to be exhausted), so `load "01"`
succeeds with `Int 0` and leaves `1` unread. -/
theorem C5_counterexample :
    loadStr "01" = .ok (.nint 0) ∧
    loadNumber "01".toList = .ok (.nint 0, ['1']) :=
  ⟨rfl, rfl⟩

/-- **C5, amended.** Leading zeros are prevented structurally, not by an
error: after a leading `0` the integer part consumes no further digit, so
`0` followed by any digit parses as the single value `Int 0` with the
following digits left unconsumed — the digits never form one numeric
value, and no `SyntaxError` is raised for them. -/
theorem C5_amended (c : Char) (rest : List Char) (h : cIsDigit c = true) :
    loadNumber ('0' :: c :: rest) = .ok (.nint 0, c :: rest) := by
  have hdot : ¬c = '.' := by
    intro hc; subst hc; simp [cIsDigit] at h
  have he : ¬(c = 'e' ∨ c = 'E') := by
    rintro (hc | hc) <;> (subst hc; simp [cIsDigit] at h)
  simp [loadNumber, numISign, numIPart, numFPart, numEPart, hdot, he,
    numConvert, intShapedVal, digitsVal, stoiMin, stoiMax]

/-- Witness for `C5_amended` at `c = '1'`. -/
theorem C5_amended_witness :
    cIsDigit '1' = true ∧ loadNumber "01".toList = .ok (.nint 0, ['1']) :=
  ⟨rfl, C5_amended '1' [] rfl⟩

/-- **C3, amended.** The classification at the end of `LoadNumber`,
with the `Int` range being that of `std::stoi`'s 32-bit `int` (not the
64-bit range the claim states): an integer-shaped token whose value fits
`[-2^31, 2^31-1]` yields `Int` of that value; an integer-shaped token
outside that range goes through `std::stod` and never yields an `Int` —
it yields a `Double` of the literal's exact value when that is within
double range; a token with a fraction or exponent part never yields an
`Int`.  Concretely: `3` is `Int 3`, `3.0` is `Double 3.0`, `3e2` is
`Double 300.0`, and one above the 64-bit maximum, `9223372036854775808`,
is `Double 2^63`. -/
theorem C3_amended :
    (∀ (neg : Bool) (ipart : List Char) (rest : List Char),
      (stoiMin ≤ intShapedVal neg ipart ∧ intShapedVal neg ipart ≤ stoiMax →
        numConvert neg ipart none none rest = .ok (.nint (intShapedVal neg ipart), rest)) ∧
      (¬(stoiMin ≤ intShapedVal neg ipart ∧ intShapedVal neg ipart ≤ stoiMax) →
        numConvert neg ipart none none rest =
          (if stodInRange (decVal neg ipart none none) then
            .ok (.ndouble (decVal neg ipart none none), rest)
          else
            .error ("Failed to convert " ++ String.mk (numToken neg ipart none none)
              ++ " to number")) ∧
        ∀ n r, numConvert neg ipart none none rest ≠ .ok (.nint n, r))) ∧
    (∀ (neg : Bool) (ipart : List Char) (fpart : Option (List Char))
      (epart : Option ExpPart) (rest : List Char),
      fpart ≠ none ∨ epart ≠ none →
      numConvert neg ipart fpart epart rest =
        (if stodInRange (decVal neg ipart fpart epart) then
          .ok (.ndouble (decVal neg ipart fpart epart), rest)
        else
          .error ("Failed to convert " ++ String.mk (numToken neg ipart fpart epart)
            ++ " to number")) ∧
      ∀ n r, numConvert neg ipart fpart epart rest ≠ .ok (.nint n, r)) ∧
    loadStr "3" = .ok (.nint 3) ∧
    loadStr "3.0" = .ok (.ndouble ⟨3, 0⟩) ∧
    loadStr "3e2" = .ok (.ndouble ⟨3, 2⟩) ∧
    loadStr "9223372036854775808" = .ok (.ndouble ⟨9223372036854775808, 0⟩) := by
  refine ⟨?_, ?_, rfl, rfl, rfl, rfl⟩
  · intro neg ipart rest
    constructor
    · intro h
      simp [numConvert, h]
    · intro h
      constructor
      · simp [numConvert, h]
      · intro n r
        simp [numConvert, h]
        split <;> simp
  · intro neg ipart fpart epart rest h
    have h' : ¬(fpart = none ∧ epart = none) := by
      rcases h with h | h <;> intro hc <;> [exact h hc.1; exact h hc.2]
    constructor
    · simp [numConvert, h']
    · intro n r
      simp [numConvert, h']
      split <;> simp

/-- Witness for `C3_amended`: the integer branch at `3`, the overflow
branch at `2147483648`, and the fraction branch at `3.0`. -/
theorem C3_amended_witness :
    numConvert false ['3'] none none [] = .ok (.nint 3, []) ∧
    numConvert false "2147483648".toList none none [] =
      (if stodInRange (decVal false "2147483648".toList none none) then
        .ok (.ndouble (decVal false "2147483648".toList none none), [])
      else
        .error ("Failed to convert "
          ++ String.mk (numToken false "2147483648".toList none none) ++ " to number")) ∧
    numConvert false ['3'] (some ['0']) none [] ≠ .ok (.nint 3, []) :=
  ⟨(C3_amended.1 false ['3'] []).1 (by decide),
   ((C3_amended.1 false "2147483648".toList []).2 (by decide)).1,
   (C3_amended.2.1 false ['3'] (some ['0']) none [] (Or.inl (by simp))).2 3 []⟩

/-- **C6.** Parsing an object that repeats a key fails with the
`ParsingError` "Duplicate key ... have been found" and produces no value:
whenever the pair loop reads a key already present in the accumulated
object (after its `:`), it returns that error, and concretely
`{"a":1,"a":2}` fails with it. -/
theorem C6_duplicate_key :
    (∀ (f : Nat) (acc : NodeDict) (input body k r r2 : List Char),
      skipWs input = '"' :: body →
      loadString body = .ok (k, r) →
      skipWs r = ':' :: r2 →
      acc.hasKey k = true →
      loadDict (f + 1) acc input =
        .error ("Duplicate key '" ++ String.mk k ++ "' have been found")) ∧
    loadStr "\x7b\"a\":1,\"a\":2\x7d" = .error "Duplicate key 'a' have been found" := by
  refine ⟨?_, rfl⟩
  intro f acc input body k r r2 h1 h2 h3 h4
  simp [loadDict, h1, h2, h3, h4]

/-- Witness for `C6_duplicate_key`: the loop rejects `"a":2}` when `"a"`
is already stored. -/
theorem C6_duplicate_key_witness :
    loadDict 1 (.cons ['a'] (.nint 1) .nil) "\"a\":2\x7d".toList =
      .error "Duplicate key 'a' have been found" :=
  C6_duplicate_key.1 0 (.cons ['a'] (.nint 1) .nil) "\"a\":2\x7d".toList
    "a\":2\x7d".toList ['a'] ":2\x7d".toList "2\x7d".toList rfl rfl rfl rfl

/-- **C10.** The array loop never checks comma placement: `[1 2]` parses
to `Array([1, 2])` and `[,1]` to `Array([1])`; in general a `,` at element
position is dropped and an element is parsed unconditionally after it,
and any other non-`]` character simply begins the next element — neither
a missing nor a leading comma is an error. -/
theorem C10_array_commas :
    loadStr "[1 2]" = .ok (.narr (.cons (.nint 1) (.cons (.nint 2) .nil))) ∧
    loadStr "[,1]" = .ok (.narr (.cons (.nint 1) .nil)) ∧
    (∀ (f : Nat) (input r : List Char), skipWs input = ',' :: r →
      loadArr (f + 1) input =
        match loadNode f r with
        | .error e => .error e
        | .ok (n, rr) =>
          match loadArr f rr with
          | .error e => .error e
          | .ok (xs, r') => .ok (.cons n xs, r')) ∧
    (∀ (f : Nat) (input : List Char) (c : Char) (r : List Char),
      skipWs input = c :: r → c ≠ ']' → c ≠ ',' →
      loadArr (f + 1) input =
        match loadNode f (c :: r) with
        | .error e => .error e
        | .ok (n, rr) =>
          match loadArr f rr with
          | .error e => .error e
          | .ok (xs, r') => .ok (.cons n xs, r')) := by
  refine ⟨rfl, rfl, ?_, ?_⟩
  · intro f input r h
    simp [loadArr, h]
  · intro f input c r h hc1 hc2
    simp [loadArr, h, hc1, hc2]

/-- Witness for `C10_array_commas`: both loop equations at the inputs
`,1]` (leading comma) and `1 2]` (element with no preceding comma). -/
theorem C10_array_commas_witness :
    loadArr 4 ",1]".toList =
      (match loadNode 3 "1]".toList with
       | .error e => .error e
       | .ok (n, rr) =>
         match loadArr 3 rr with
         | .error e => .error e
         | .ok (xs, r') => .ok (.cons n xs, r')) ∧
    loadArr 4 "1 2]".toList =
      (match loadNode 3 "1 2]".toList with
       | .error e => .error e
       | .ok (n, rr) =>
         match loadArr 3 rr with
         | .error e => .error e
         | .ok (xs, r') => .ok (.cons n xs, r')) :=
  ⟨C10_array_commas.2.2.1 3 ",1]".toList "1]".toList rfl,
   C10_array_commas.2.2.2 3 "1 2]".toList '1' " 2]".toList rfl
     (by decide) (by decide)⟩

/-- `LoadString` step: closing quote. -/
theorem loadString_quote (cs : List Char) : loadString ('"' :: cs) = .ok ([], cs) := by
  conv_lhs => rw [loadString.eq_def]
  simp

/-- `LoadString` step: the escape `\n`. -/
theorem loadString_esc_n (cs : List Char) :
    loadString ('\\' :: 'n' :: cs) = (loadString cs).map (fun p => ('\n' :: p.1, p.2)) := by
  conv_lhs => rw [loadString.eq_def]
  simp

/-- `LoadString` step: the escape `\t`. -/
theorem loadString_esc_t (cs : List Char) :
    loadString ('\\' :: 't' :: cs) = (loadString cs).map (fun p => ('\t' :: p.1, p.2)) := by
  conv_lhs => rw [loadString.eq_def]
  simp

/-- `LoadString` step: the escape `\r`. -/
theorem loadString_esc_r (cs : List Char) :
    loadString ('\\' :: 'r' :: cs) = (loadString cs).map (fun p => ('\r' :: p.1, p.2)) := by
  conv_lhs => rw [loadString.eq_def]
  simp

/-- `LoadString` step: the escape `\"`. -/
theorem loadString_esc_q (cs : List Char) :
    loadString ('\\' :: '"' :: cs) = (loadString cs).map (fun p => ('"' :: p.1, p.2)) := by
  conv_lhs => rw [loadString.eq_def]
  simp

/-- `LoadString` step: the escape `\\`. -/
theorem loadString_esc_b (cs : List Char) :
    loadString ('\\' :: '\\' :: cs) = (loadString cs).map (fun p => ('\\' :: p.1, p.2)) := by
  conv_lhs => rw [loadString.eq_def]
  simp

/-- `LoadString` step: any other escape is an error. -/
theorem loadString_esc_bad (e : Char) (cs : List Char)
    (h1 : e ≠ 'n') (h2 : e ≠ 't') (h3 : e ≠ 'r') (h4 : e ≠ '"') (h5 : e ≠ '\\') :
    loadString ('\\' :: e :: cs) =
      .error ("Unrecognized escape sequence \\" ++ String.mk [e]) := by
  conv_lhs => rw [loadString.eq_def]
  simp [h1, h2, h3, h4, h5]

/-- `LoadString` step: a raw newline is an error. -/
theorem loadString_nl (cs : List Char) :
    loadString ('\n' :: cs) = .error "Unexpected end of line" := by
  conv_lhs => rw [loadString.eq_def]
  simp

/-- `LoadString` step: a raw carriage return is an error. -/
theorem loadString_cr (cs : List Char) :
    loadString ('\r' :: cs) = .error "Unexpected end of line" := by
  conv_lhs => rw [loadString.eq_def]
  simp

/-- `LoadString` step: any other character passes through. -/
theorem loadString_other (c : Char) (cs : List Char)
    (h1 : c ≠ '"') (h2 : c ≠ '\\') (h3 : c ≠ '\n') (h4 : c ≠ '\r') :
    loadString (c :: cs) = (loadString cs).map (fun p => (c :: p.1, p.2)) := by
  conv_lhs => rw [loadString.eq_def]
  simp [h1, h2, h3, h4]

/-- Decoding inverts the printer's escaping: `LoadString` on
`escapeChars s` followed by the closing quote returns exactly `s`. -/
theorem loadString_escapeChars (s : List Char) :
    ∀ rest, loadString (escapeChars s ++ '"' :: rest) = .ok (s, rest) := by
  induction s with
  | nil => intro rest; simpa [escapeChars] using loadString_quote rest
  | cons c t ih =>
    intro rest
    by_cases h1 : c = '\r'
    · subst h1; simp [escapeChars, loadString_esc_r, ih, Except.map]
    · by_cases h2 : c = '\n'
      · subst h2; simp [escapeChars, loadString_esc_n, ih, Except.map]
      · by_cases h3 : c = '\t'
        · subst h3; simp [escapeChars, loadString_esc_t, ih, Except.map]
        · by_cases h4 : c = '"'
          · subst h4; simp [escapeChars, loadString_esc_q, ih, Except.map]
          · by_cases h5 : c = '\\'
            · subst h5; simp [escapeChars, loadString_esc_b, ih, Except.map]
            · simp [escapeChars, h1, h2, h3, h4, h5,
                loadString_other c _ h4 h5 h2 h1, ih, Except.map]

/-- **C7.** The behavior of `LoadString` on every form of quoted-string
input: a closing quote ends the string; the five escapes `\n \t \r \" \\`
decode to their one-character forms; any other escape is the
`ParsingError` "Unrecognized escape sequence"; a raw newline or carriage
return is "Unexpected end of line"; end of input before the closing quote
(in particular after a lone backslash) is "String parsing error"; every
other character passes through unchanged — consequently decoding inverts
the printer's escaping. -/
theorem C7_load_string :
    (∀ cs, loadString ('"' :: cs) = .ok ([], cs)) ∧
    (∀ cs, loadString ('\\' :: 'n' :: cs) =
      (loadString cs).map (fun p => ('\n' :: p.1, p.2))) ∧
    (∀ cs, loadString ('\\' :: 't' :: cs) =
      (loadString cs).map (fun p => ('\t' :: p.1, p.2))) ∧
    (∀ cs, loadString ('\\' :: 'r' :: cs) =
      (loadString cs).map (fun p => ('\r' :: p.1, p.2))) ∧
    (∀ cs, loadString ('\\' :: '"' :: cs) =
      (loadString cs).map (fun p => ('"' :: p.1, p.2))) ∧
    (∀ cs, loadString ('\\' :: '\\' :: cs) =
      (loadString cs).map (fun p => ('\\' :: p.1, p.2))) ∧
    (∀ (e : Char) (cs : List Char),
      e ≠ 'n' → e ≠ 't' → e ≠ 'r' → e ≠ '"' → e ≠ '\\' →
      loadString ('\\' :: e :: cs) =
        .error ("Unrecognized escape sequence \\" ++ String.mk [e])) ∧
    (∀ cs, loadString ('\n' :: cs) = .error "Unexpected end of line") ∧
    (∀ cs, loadString ('\r' :: cs) = .error "Unexpected end of line") ∧
    loadString [] = .error "String parsing error" ∧
    loadString ['\\'] = .error "String parsing error" ∧
    (∀ (c : Char) (cs : List Char),
      c ≠ '"' → c ≠ '\\' → c ≠ '\n' → c ≠ '\r' →
      loadString (c :: cs) = (loadString cs).map (fun p => (c :: p.1, p.2))) ∧
    (∀ s rest, loadString (escapeChars s ++ '"' :: rest) = .ok (s, rest)) :=
  ⟨loadString_quote, loadString_esc_n, loadString_esc_t, loadString_esc_r,
   loadString_esc_q, loadString_esc_b, loadString_esc_bad, loadString_nl,
   loadString_cr, rfl, rfl, loadString_other,
   fun s rest => loadString_escapeChars s rest⟩

/-- Witness for `C7_load_string`: the unrecognized escape `\q` and the
pass-through of `a`. -/
theorem C7_load_string_witness :
    loadString ['\\', 'q'] = .error "Unrecognized escape sequence \\q" ∧
    loadString ['a', '"'] = (loadString ['"']).map (fun p => ('a' :: p.1, p.2)) :=
  ⟨C7_load_string.2.2.2.2.2.2.1 'q' [] (by decide) (by decide) (by decide)
      (by decide) (by decide),
   C7_load_string.2.2.2.2.2.2.2.2.2.2.2.1 'a' ['"'] (by decide) (by decide)
      (by decide) (by decide)⟩

/-- **C8.** Every illegal builder transition fails immediately with a
`logic_error`: `Key` when the current value is not an open object;
`EndArray` / `EndDict` when the current value is not an array / object;
`Build` while the stack is non-empty ("object is not finished"); and
every mutating operation once the stack is empty ("already finished"). -/
theorem C8_fail_fast :
    (∀ (b : Builder) (k : List Char) (p : List Step) (rest : List (List Step)) (v : Node),
      b.stack = p :: rest → getPath b.root p = some v → (∀ d, v ≠ .ndict d) →
      Builder.Key k b = .error "Cannot use Key() - current object is not a dictionary") ∧
    (∀ (b : Builder) (p : List Step) (rest : List (List Step)) (v : Node),
      b.stack = p :: rest → getPath b.root p = some v → (∀ xs, v ≠ .narr xs) →
      Builder.EndArray b = .error "Cannot end array - current value is not an array") ∧
    (∀ (b : Builder) (p : List Step) (rest : List (List Step)) (v : Node),
      b.stack = p :: rest → getPath b.root p = some v → (∀ d, v ≠ .ndict d) →
      Builder.EndDict b = .error "Cannot end dict - current value is not a dictionary") ∧
    (∀ b : Builder, b.stack ≠ [] →
      Builder.Build b = .error "Cannot build JSON - object is not finished") ∧
    (∀ b : Builder, b.stack = [] →
      (∀ k, Builder.Key k b = .error "Cannot modify - JSON object is already finished") ∧
      (∀ v, Builder.Value v b = .error "Cannot modify - JSON object is already finished") ∧
      Builder.StartDict b = .error "Cannot modify - JSON object is already finished" ∧
      Builder.StartArray b = .error "Cannot modify - JSON object is already finished" ∧
      Builder.EndDict b = .error "Cannot modify - JSON object is already finished" ∧
      Builder.EndArray b = .error "Cannot modify - JSON object is already finished") := by
  refine ⟨?_, ?_, ?_, ?_, ?_⟩
  · intro b k p rest v hs hg hv
    cases v with
    | ndict d => exact absurd rfl (hv d)
    | _ => simp [Builder.Key, hs, hg]
  · intro b p rest v hs hg hv
    cases v with
    | narr xs => exact absurd rfl (hv xs)
    | _ => simp [Builder.EndArray, hs, hg]
  · intro b p rest v hs hg hv
    cases v with
    | ndict d => exact absurd rfl (hv d)
    | _ => simp [Builder.EndDict, hs, hg]
  · intro b hs
    cases hb : b.stack with
    | nil => exact absurd hb hs
    | cons p rest => simp [Builder.Build, hb]
  · intro b hs
    refine ⟨fun k => ?_, fun v => ?_, ?_, ?_, ?_, ?_⟩ <;>
      simp [Builder.Key, Builder.Value, Builder.StartDict, Builder.StartArray,
        Builder.EndDict, Builder.EndArray, Builder.AddObject, hs]

/-- Witness for `C8_fail_fast`: `Key` on an open array, `EndArray` on an
open object, `Build` on the fresh builder, and a `Value` after the
document is finished. -/
theorem C8_fail_fast_witness :
    Builder.Key ['x'] ⟨.narr .nil, [[]]⟩ =
      .error "Cannot use Key() - current object is not a dictionary" ∧
    Builder.EndArray ⟨.ndict .nil, [[]]⟩ =
      .error "Cannot end array - current value is not an array" ∧
    Builder.Build Builder.init = .error "Cannot build JSON - object is not finished" ∧
    Builder.Value (.nint 1) ⟨.nint 1, []⟩ =
      .error "Cannot modify - JSON object is already finished" :=
  ⟨C8_fail_fast.1 ⟨.narr .nil, [[]]⟩ ['x'] [] [] (.narr .nil) rfl rfl
      (fun d h => Node.noConfusion h),
   C8_fail_fast.2.1 ⟨.ndict .nil, [[]]⟩ [] [] (.ndict .nil) rfl rfl
      (fun xs h => Node.noConfusion h),
   C8_fail_fast.2.2.2.1 Builder.init (by simp [Builder.init]),
   (C8_fail_fast.2.2.2.2 ⟨.nint 1, []⟩ rfl).2.1 (.nint 1)⟩

/-- **C9.** The builder call sequence `StartArray, Value(1), Value(2),
EndArray, Build` from the fresh state succeeds and yields
`Array([Int 1, Int 2])`, elements in call order. -/
theorem C9_builder_array :
    (bstep Builder.EndArray
      (bstep (Builder.Value (.nint 2))
        (bstep (Builder.Value (.nint 1))
          (Builder.StartArray Builder.init)))).bind Builder.Build =
    .ok (.narr (.cons (.nint 1) (.cons (.nint 2) .nil))) := rfl

/-! ## The round trip (C1): helper lemmas -/

theorem skipWs_cons_ws (c : Char) (cs : List Char) (h : cIsSpace c = true) :
    skipWs (c :: cs) = skipWs cs := by simp [skipWs, h]

theorem skipWs_cons_nonws (c : Char) (cs : List Char) (h : cIsSpace c = false) :
    skipWs (c :: cs) = c :: cs := by simp [skipWs, h]

theorem skipWs_append_ws (l r : List Char) (h : ∀ c ∈ l, cIsSpace c = true) :
    skipWs (l ++ r) = skipWs r := by
  induction l with
  | nil => rfl
  | cons c t ih =>
    have hc : cIsSpace c = true := h c (by simp)
    simp only [List.cons_append, skipWs_cons_ws c _ hc]
    exact ih (fun x hx => h x (by simp [hx]))

theorem skipWs_replicate (n : Nat) (r : List Char) :
    skipWs (List.replicate n ' ' ++ r) = skipWs r :=
  skipWs_append_ws _ r (by intro c hc; rw [List.eq_of_mem_replicate hc]; rfl)

theorem skipWs_idem (l : List Char) : skipWs (skipWs l) = skipWs l := by
  induction l with
  | nil => rfl
  | cons c t ih =>
    by_cases h : cIsSpace c = true
    · rw [skipWs_cons_ws c t h]; exact ih
    · rw [skipWs_cons_nonws c t (by simpa using h),
        skipWs_cons_nonws c t (by simpa using h)]

theorem loadNode_skipWs (fuel : Nat) (input : List Char) :
    loadNode fuel input = loadNode fuel (skipWs input) := by
  cases fuel with
  | zero => rfl
  | succ f => simp only [loadNode, skipWs_idem]

theorem loadArr_skipWs (fuel : Nat) (input : List Char) :
    loadArr fuel input = loadArr fuel (skipWs input) := by
  cases fuel with
  | zero => rfl
  | succ f => simp only [loadArr, skipWs_idem]

theorem loadDict_skipWs (fuel : Nat) (acc : NodeDict) (input : List Char) :
    loadDict fuel acc input = loadDict fuel acc (skipWs input) := by
  cases fuel with
  | zero => rfl
  | succ f => simp only [loadDict, skipWs_idem]

theorem loadLiteral_append (s : List Char) (rest : List Char)
    (hs : ∀ c ∈ s, cIsAlpha c = true) (hr : goodStop rest) :
    loadLiteral (s ++ rest) = (s, rest) := by
  induction s with
  | nil =>
    cases rest with
    | nil => rfl
    | cons c r =>
      have : cIsAlpha c = false := hr.2.1
      simp [loadLiteral, this]
  | cons a t ih =>
    have ha : cIsAlpha a = true := hs a (by simp)
    simp [loadLiteral, ha, ih (fun x hx => hs x (by simp [hx]))]

theorem loadNull_literal (rest : List Char) (hr : goodStop rest) :
    loadNull ('n' :: 'u' :: 'l' :: 'l' :: rest) = .ok (.null, rest) := by
  have h := loadLiteral_append ['n', 'u', 'l', 'l'] rest (by decide) hr
  simp only [List.cons_append, List.nil_append] at h
  simp [loadNull, h]

theorem loadBool_true (rest : List Char) (hr : goodStop rest) :
    loadBool ('t' :: 'r' :: 'u' :: 'e' :: rest) = .ok (.nbool true, rest) := by
  have h := loadLiteral_append ['t', 'r', 'u', 'e'] rest (by decide) hr
  simp only [List.cons_append, List.nil_append] at h
  simp [loadBool, h]

theorem loadBool_false (rest : List Char) (hr : goodStop rest) :
    loadBool ('f' :: 'a' :: 'l' :: 's' :: 'e' :: rest) = .ok (.nbool false, rest) := by
  have h := loadLiteral_append ['f', 'a', 'l', 's', 'e'] rest (by decide) hr
  simp only [List.cons_append, List.nil_append] at h
  simp [loadBool, h]

theorem keyLt_irrefl (k : List Char) : keyLt k k = false := by
  induction k with
  | nil => rfl
  | cons a t ih => simp [keyLt, ih]

theorem keyLt_ne {a b : List Char} (h : keyLt a b = true) : a ≠ b := by
  intro hab
  subst hab
  rw [keyLt_irrefl] at h
  exact Bool.noConfusion h

theorem keyLt_asymm : ∀ a b : List Char, keyLt a b = true → keyLt b a = false
  | [], [], h => by simp [keyLt] at h
  | [], _ :: _, _ => by simp [keyLt]
  | _ :: _, [], h => by simp [keyLt] at h
  | x :: xs, y :: ys, h => by
    simp only [keyLt] at h ⊢
    rcases Nat.lt_trichotomy x.toNat y.toNat with h1 | h1 | h1
    · rw [if_neg (by omega), if_pos h1]
    · rw [if_neg (by omega), if_neg (by omega)] at h ⊢
      exact keyLt_asymm xs ys h
    · rw [if_neg (by omega), if_pos h1] at h
      exact absurd h (by simp)

theorem keyLt_trans : ∀ a b c : List Char,
    keyLt a b = true → keyLt b c = true → keyLt a c = true
  | [], [], _, hab, _ => by simp [keyLt] at hab
  | _ :: _, [], _, hab, _ => by simp [keyLt] at hab
  | [], _ :: _, [], _, hbc => by simp [keyLt] at hbc
  | [], _ :: _, _ :: _, _, _ => by simp [keyLt]
  | _ :: _, _ :: _, [], _, hbc => by simp [keyLt] at hbc
  | x :: xs, y :: ys, z :: zs, hab, hbc => by
    simp only [keyLt] at hab hbc ⊢
    rcases Nat.lt_trichotomy x.toNat y.toNat with h1 | h1 | h1
    · rcases Nat.lt_trichotomy y.toNat z.toNat with h2 | h2 | h2
      · rw [if_pos (by omega)]
      · rw [if_pos (by omega)]
      · rw [if_neg (by omega), if_pos h2] at hbc
        exact absurd hbc (by simp)
    · rcases Nat.lt_trichotomy y.toNat z.toNat with h2 | h2 | h2
      · rw [if_pos (by omega)]
      · rw [if_neg (by omega), if_neg (by omega)] at hab hbc ⊢
        exact keyLt_trans xs ys zs hab hbc
      · rw [if_neg (by omega), if_pos h2] at hbc
        exact absurd hbc (by simp)
    · rw [if_neg (by omega), if_pos h1] at hab
      exact absurd hab (by simp)

theorem appendD_nil : ∀ d : NodeDict, d.appendD .nil = d
  | .nil => rfl
  | .cons k v t => by simp [NodeDict.appendD, appendD_nil t]

theorem appendD_assoc : ∀ a b c : NodeDict,
    (a.appendD b).appendD c = a.appendD (b.appendD c)
  | .nil, _, _ => rfl
  | .cons k v t, b, c => by simp [NodeDict.appendD, appendD_assoc t b c]

theorem insert_eq_appendD : ∀ (acc : NodeDict) (k : List Char) (v : Node),
    acc.allLt k → acc.insert k v = acc.appendD (.cons k v .nil)
  | .nil, _, _, _ => rfl
  | .cons ka w t, k, v, h => by
    obtain ⟨hlt, ht⟩ := h
    have hf : keyLt k ka = false := keyLt_asymm ka k hlt
    simp [NodeDict.insert, NodeDict.appendD, hf, insert_eq_appendD t k v ht]

theorem hasKey_false_of_allLt : ∀ (acc : NodeDict) (k : List Char),
    acc.allLt k → acc.hasKey k = false
  | .nil, _, _ => rfl
  | .cons ka w t, k, h => by
    obtain ⟨hlt, ht⟩ := h
    have hne : ka ≠ k := keyLt_ne hlt
    simp [NodeDict.hasKey, hne, hasKey_false_of_allLt t k ht]

theorem allLt_of_lt : ∀ (acc : NodeDict) (k k' : List Char),
    acc.allLt k → keyLt k k' = true → acc.allLt k'
  | .nil, _, _, _, _ => trivial
  | .cons ka w t, k, k', h, hk => by
    obtain ⟨hlt, ht⟩ := h
    exact ⟨keyLt_trans ka k k' hlt hk, allLt_of_lt t k k' ht hk⟩

theorem allLt_appendD : ∀ (acc : NodeDict) (k : List Char) (v : Node)
    (k' : List Char), acc.allLt k' → keyLt k k' = true →
    (acc.appendD (.cons k v .nil)).allLt k'
  | .nil, _, _, _, _, h2 => ⟨h2, trivial⟩
  | .cons ka w t, k, v, k', h1, h2 => by
    obtain ⟨hlt, ht⟩ := h1
    exact ⟨hlt, allLt_appendD t k v k' ht h2⟩

theorem digitChar_toNat (d : Nat) (h : d < 10) : (digitChar d).toNat = 48 + d := by
  interval_cases d <;> rfl

theorem cIsDigit_digitChar (d : Nat) (h : d < 10) : cIsDigit (digitChar d) = true := by
  interval_cases d <;> rfl

theorem digitsVal_append_single (ds : List Char) (c : Char) :
    digitsVal (ds ++ [c]) = 10 * digitsVal ds + (c.toNat - '0'.toNat) := by
  simp [digitsVal, List.foldl_append]

theorem natToCharsAux_spec : ∀ (fuel n : Nat) (acc : List Char), n < 10 ^ (fuel + 1) →
    ∃ ds : List Char, natToCharsAux (fuel + 1) n acc = ds ++ acc ∧ ds ≠ [] ∧
      (∀ c ∈ ds, cIsDigit c = true) ∧ digitsVal ds = n ∧
      (∀ cs', ds = '0' :: cs' → n = 0) := by
  intro fuel
  induction fuel with
  | zero =>
    intro n acc hn
    have hn10 : n < 10 := by simpa using hn
    refine ⟨[digitChar n], by simp [natToCharsAux, hn10], by simp, ?_, ?_, ?_⟩
    · intro c hc
      rw [List.mem_singleton] at hc
      subst hc
      exact cIsDigit_digitChar n hn10
    · simp [digitsVal, digitChar_toNat n hn10]
    · intro cs' h0
      have : (digitChar n).toNat = '0'.toNat := by
        rw [List.cons.injEq] at h0
        rw [h0.1]
      rw [digitChar_toNat n hn10] at this
      have h48 : '0'.toNat = 48 := rfl
      omega
  | succ f ih =>
    intro n acc hn
    by_cases hn10 : n < 10
    · refine ⟨[digitChar n], by simp [natToCharsAux, hn10], by simp, ?_, ?_, ?_⟩
      · intro c hc
        rw [List.mem_singleton] at hc
        subst hc
        exact cIsDigit_digitChar n hn10
      · simp [digitsVal, digitChar_toNat n hn10]
      · intro cs' h0
        have : (digitChar n).toNat = '0'.toNat := by
          rw [List.cons.injEq] at h0
          rw [h0.1]
        rw [digitChar_toNat n hn10] at this
        have h48 : '0'.toNat = 48 := rfl
        omega
    · have hdiv : n / 10 < 10 ^ (f + 1) := by
        rw [Nat.div_lt_iff_lt_mul (by norm_num)]
        calc n < 10 ^ (f + 1 + 1) := hn
        _ = 10 ^ (f + 1) * 10 := by ring
      obtain ⟨ds', heq, hne, hdig, hval, hz⟩ :=
        ih (n / 10) (digitChar (n % 10) :: acc) hdiv
      refine ⟨ds' ++ [digitChar (n % 10)], ?_, by simp, ?_, ?_, ?_⟩
      · rw [natToCharsAux, if_neg hn10, heq, List.append_assoc]
        rfl
      · intro c hc
        rcases List.mem_append.1 hc with h | h
        · exact hdig c h
        · rw [List.mem_singleton] at h
          subst h
          exact cIsDigit_digitChar _ (Nat.mod_lt n (by norm_num))
      · rw [digitsVal_append_single, hval,
          digitChar_toNat _ (Nat.mod_lt n (by norm_num))]
        have h48 : '0'.toNat = 48 := rfl
        omega
      · intro cs' h0
        cases ds' with
        | nil => exact absurd rfl hne
        | cons d0 dt =>
          rw [List.cons_append, List.cons.injEq] at h0
          have : n / 10 = 0 := hz dt (by rw [h0.1])
          omega

theorem natToChars_spec (n : Nat) :
    natToChars n ≠ [] ∧ (∀ c ∈ natToChars n, cIsDigit c = true) ∧
      digitsVal (natToChars n) = n ∧
      (∀ cs', natToChars n = '0' :: cs' → n = 0) := by
  obtain ⟨ds, heq, hne, hdig, hval, hz⟩ :=
    natToCharsAux_spec n n [] (by
      calc n < 10 ^ n := Nat.lt_pow_self (by norm_num) n
      _ ≤ 10 ^ (n + 1) := Nat.pow_le_pow_right (by norm_num) (Nat.le_succ n))
  rw [List.append_nil] at heq
  rw [natToChars, heq]
  exact ⟨hne, hdig, hval, hz⟩

theorem takeWhile_append_all (p : Char → Bool) :
    ∀ (ds rest : List Char), (∀ c ∈ ds, p c = true) →
    (match rest with | [] => True | c :: _ => p c = false) →
    (ds ++ rest).takeWhile p = ds ∧ (ds ++ rest).dropWhile p = rest := by
  intro ds
  induction ds with
  | nil =>
    intro rest _ hr
    cases rest with
    | nil => exact ⟨rfl, rfl⟩
    | cons c r =>
      simp only at hr
      simp [List.takeWhile_cons, List.dropWhile_cons, hr]
  | cons d dt ih =>
    intro rest hd hr
    have hdp : p d = true := hd d (by simp)
    obtain ⟨h1, h2⟩ := ih rest (fun c hc => hd c (by simp [hc])) hr
    simp [List.takeWhile_cons, List.dropWhile_cons, hdp, h1, h2]

theorem readDigits_exact (ds rest : List Char) (hne : ds ≠ [])
    (hd : ∀ c ∈ ds, cIsDigit c = true) (hr : goodStop rest) :
    readDigits (ds ++ rest) = .ok (ds, rest) := by
  obtain ⟨h1, h2⟩ := takeWhile_append_all cIsDigit ds rest hd (by
    cases rest with
    | nil => trivial
    | cons c r => exact hr.1)
  have hie : ds.isEmpty = false := by
    cases ds with
    | nil => exact absurd rfl hne
    | cons _ _ => rfl
  simp [readDigits, h1, h2, hie]

theorem numIPart_print (m : Nat) (rest : List Char) (hr : goodStop rest) :
    numIPart (natToChars m ++ rest) = .ok (natToChars m, rest) := by
  obtain ⟨hne, hdig, hval, hz⟩ := natToChars_spec m
  cases hds : natToChars m with
  | nil => exact absurd hds hne
  | cons d tl =>
    by_cases hd0 : d = '0'
    · subst hd0
      have hm : m = 0 := hz tl hds
      subst hm
      have h0 : natToChars 0 = ['0'] := rfl
      rw [h0] at hds
      have htl : tl = [] := by injection hds with _ h; exact h.symm
      subst htl
      simp [numIPart]
    · have hrd : readDigits (natToChars m ++ rest) = .ok (natToChars m, rest) :=
        readDigits_exact _ _ hne hdig hr
      rw [hds] at hrd
      simp only [List.cons_append] at hrd ⊢
      simp [numIPart, hd0, hrd]

theorem numFPart_stop (rest : List Char) (hr : goodStop rest) :
    numFPart rest = .ok (none, rest) := by
  cases rest with
  | nil => rfl
  | cons c r =>
    have hc : ¬c = '.' := hr.2.2
    simp [numFPart, hc]

theorem numEPart_stop (rest : List Char) (hr : goodStop rest) :
    numEPart rest = .ok (none, rest) := by
  cases rest with
  | nil => rfl
  | cons c r =>
    have hc : ¬(c = 'e' ∨ c = 'E') := by
      rintro (h | h) <;> (subst h; exact absurd hr.2.1 (by decide))
    simp [numEPart, hc]

theorem cIsDigit_bounds (c : Char) (h : cIsDigit c = true) :
    48 ≤ c.toNat ∧ c.toNat ≤ 57 := by
  have h48 : '0'.toNat = 48 := rfl
  have h57 : '9'.toNat = 57 := rfl
  simp only [cIsDigit, Bool.and_eq_true, decide_eq_true_eq, h48, h57] at h
  exact h

theorem cIsDigit_ne (c : Char) (h : cIsDigit c = true) :
    c ≠ '[' ∧ c ≠ '{' ∧ c ≠ '"' ∧ c ≠ 't' ∧ c ≠ 'f' ∧ c ≠ 'n' ∧
      c ≠ ']' ∧ c ≠ ',' ∧ c ≠ '}' ∧ c ≠ '-' ∧ cIsSpace c = false := by
  obtain ⟨hlo, hhi⟩ := cIsDigit_bounds c h
  have hch : ∀ x : Char, c.toNat ≠ x.toNat → c ≠ x :=
    fun x hx he => hx (by rw [he])
  have hdec : ∀ x : Char, c.toNat ≠ x.toNat → decide (c = x) = false :=
    fun x hx => decide_eq_false (hch x hx)
  have e1 : ('[' : Char).toNat = 91 := rfl
  have e2 : ('{' : Char).toNat = 123 := rfl
  have e3 : ('"' : Char).toNat = 34 := rfl
  have e4 : ('t' : Char).toNat = 116 := rfl
  have e5 : ('f' : Char).toNat = 102 := rfl
  have e6 : ('n' : Char).toNat = 110 := rfl
  have e7 : (']' : Char).toNat = 93 := rfl
  have e8 : (',' : Char).toNat = 44 := rfl
  have e9 : ('}' : Char).toNat = 125 := rfl
  have e10 : ('-' : Char).toNat = 45 := rfl
  have s1 : (' ' : Char).toNat = 32 := rfl
  have s2 : ('\t' : Char).toNat = 9 := rfl
  have s3 : ('\n' : Char).toNat = 10 := rfl
  have s4 : ('\x0b' : Char).toNat = 11 := rfl
  have s5 : ('\x0c' : Char).toNat = 12 := rfl
  have s6 : ('\x0d' : Char).toNat = 13 := rfl
  refine ⟨hch _ (by omega), hch _ (by omega), hch _ (by omega), hch _ (by omega),
    hch _ (by omega), hch _ (by omega), hch _ (by omega), hch _ (by omega),
    hch _ (by omega), hch _ (by omega), ?_⟩
  simp only [cIsSpace, hdec ' ' (by omega), hdec '\t' (by omega),
    hdec '\n' (by omega), hdec '\x0b' (by omega), hdec '\x0c' (by omega),
    hdec '\x0d' (by omega), Bool.or_false]

theorem loadNumber_print_int (i : Int) (h1 : stoiMin ≤ i) (h2 : i ≤ stoiMax)
    (rest : List Char) (hr : goodStop rest) :
    loadNumber (intToChars i ++ rest) = .ok (.nint i, rest) := by
  obtain ⟨hne, hdig, hval, hz⟩ := natToChars_spec i.natAbs
  by_cases hneg : i < 0
  · rw [intToChars, if_pos hneg, List.cons_append]
    have hsgn : numISign ('-' :: (natToChars i.natAbs ++ rest)) =
        (true, natToChars i.natAbs ++ rest) := by simp [numISign]
    have hv : intShapedVal true (natToChars i.natAbs) = i := by
      unfold intShapedVal
      rw [if_pos rfl, hval]
      omega
    simp only [loadNumber, hsgn, numIPart_print i.natAbs rest hr,
      numFPart_stop rest hr, numEPart_stop rest hr, numConvert, hv]
    simp [h1, h2]
  · rw [intToChars, if_neg hneg]
    cases hds : natToChars i.natAbs with
    | nil => exact absurd hds hne
    | cons d tl =>
      have hdd : cIsDigit d = true := hdig d (by rw [hds]; simp)
      have hdm : d ≠ '-' := (cIsDigit_ne d hdd).2.2.2.2.2.2.2.2.2.1
      have hv : intShapedVal false (d :: tl) = i := by
        rw [← hds]
        unfold intShapedVal
        rw [if_neg (by decide), hval]
        omega
      have hsgn : numISign ((d :: tl) ++ rest) = (false, (d :: tl) ++ rest) := by
        simp [numISign, hdm]
      have hip := numIPart_print i.natAbs rest hr
      rw [hds] at hip
      simp only [loadNumber, hsgn, hip, numFPart_stop rest hr,
        numEPart_stop rest hr, numConvert, hv]
      simp [h1, h2]

theorem fuelNode_pos : ∀ v : Node, 1 ≤ fuelNode v
  | .null | .nbool _ | .nint _ | .ndouble _ | .nstr _ => le_refl 1
  | .narr _ => by simp [fuelNode]
  | .ndict _ => by simp [fuelNode]

theorem goodStop_arrTail (step inner : Nat) (t : NodeList) (z : List Char) :
    goodStop (printArrItems step inner false t ++ '\n' :: z) := by
  cases t with
  | nil =>
    show goodStop ([] ++ '\n' :: z)
    exact ⟨by decide, by decide, by decide⟩
  | cons h tt =>
    show goodStop ((([',', '\n'] ++ List.replicate inner ' ') ++
      printNode step inner h ++ printArrItems step inner false tt) ++ '\n' :: z)
    exact ⟨by decide, by decide, by decide⟩

theorem goodStop_dictTail (step inner : Nat) (t : NodeDict) (z : List Char) :
    goodStop (printDictItems step inner false t ++ '\n' :: z) := by
  cases t with
  | nil =>
    show goodStop ([] ++ '\n' :: z)
    exact ⟨by decide, by decide, by decide⟩
  | cons k v tt =>
    show goodStop ((((([',', '\n'] ++ List.replicate inner ' ') ++
      printString k) ++ [':', ' ']) ++ printNode step inner v ++
      printDictItems step inner false tt) ++ '\n' :: z)
    exact ⟨by decide, by decide, by decide⟩

theorem printNode_head (step ind : Nat) (v : Node) (hdf : doubleFree v = true) :
    ∃ c cs, printNode step ind v = c :: cs ∧ cIsSpace c = false ∧
      c ≠ ']' ∧ c ≠ ',' ∧ c ≠ '}' := by
  cases v with
  | null =>
    exact ⟨'n', ['u', 'l', 'l'], rfl, by decide, by decide, by decide, by decide⟩
  | nbool b =>
    cases b with
    | false =>
      exact ⟨'f', ['a', 'l', 's', 'e'], rfl, by decide, by decide, by decide, by decide⟩
    | true =>
      exact ⟨'t', ['r', 'u', 'e'], rfl, by decide, by decide, by decide, by decide⟩
  | nint n =>
    have hp : printNode step ind (.nint n) = intToChars n := rfl
    by_cases hneg : n < 0
    · exact ⟨'-', natToChars n.natAbs, by rw [hp, intToChars, if_pos hneg],
        by decide, by decide, by decide, by decide⟩
    · obtain ⟨hne, hdig, _, _⟩ := natToChars_spec n.natAbs
      cases hds : natToChars n.natAbs with
      | nil => exact absurd hds hne
      | cons d tl =>
        have hdd : cIsDigit d = true := hdig d (by rw [hds]; simp)
        obtain ⟨_, _, _, _, _, _, g7, g8, g9, _, g11⟩ := cIsDigit_ne d hdd
        exact ⟨d, tl, by rw [hp, intToChars, if_neg hneg, hds], g11, g7, g8, g9⟩
  | ndouble q => exact absurd hdf (by simp [doubleFree])
  | nstr s =>
    exact ⟨'"', escapeChars s ++ ['"'], rfl, by decide, by decide, by decide, by decide⟩
  | narr xs =>
    exact ⟨'[', '\n' :: (printArrItems step (step + ind) true xs ++
      '\n' :: (List.replicate ind ' ' ++ [']'])), rfl,
      by decide, by decide, by decide, by decide⟩
  | ndict d =>
    exact ⟨'{', '\n' :: (printDictItems step (step + ind) true d ++
      '\n' :: (List.replicate ind ' ' ++ ['}'])), rfl,
      by decide, by decide, by decide, by decide⟩

/-! ## The round trip (C1): main induction -/

theorem skipWs_nonws_head (c : Char) (h : cIsSpace c = false) :
    ∀ cs, skipWs (c :: cs) = c :: cs := fun cs => skipWs_cons_nonws c cs h

theorem loadNode_open_bracket (f : Nat) (z : List Char) :
    loadNode (f + 1) ('[' :: z) =
      (loadArr f z).map (fun p => (Node.narr p.1, p.2)) := by
  simp [loadNode, skipWs_nonws_head '[' (by decide)]

theorem loadNode_open_brace (f : Nat) (z : List Char) :
    loadNode (f + 1) ('{' :: z) =
      (loadDict f .nil z).map (fun p => (Node.ndict p.1, p.2)) := by
  simp [loadNode, skipWs_nonws_head '{' (by decide)]

theorem loadArr_close (f : Nat) (z : List Char) :
    loadArr (f + 1) (']' :: z) = .ok (.nil, z) := by
  simp [loadArr, skipWs_nonws_head ']' (by decide)]

theorem loadArr_comma (f : Nat) (z : List Char) :
    loadArr (f + 1) (',' :: z) =
      match loadNode f z with
      | .error e => .error e
      | .ok (n, r) =>
        match loadArr f r with
        | .error e => .error e
        | .ok (xs, r') => .ok (.cons n xs, r') := by
  simp [loadArr, skipWs_nonws_head ',' (by decide)]

theorem loadArr_other (f : Nat) (c : Char) (z : List Char)
    (h1 : cIsSpace c = false) (h2 : c ≠ ']') (h3 : c ≠ ',') :
    loadArr (f + 1) (c :: z) =
      match loadNode f (c :: z) with
      | .error e => .error e
      | .ok (n, r) =>
        match loadArr f r with
        | .error e => .error e
        | .ok (xs, r') => .ok (.cons n xs, r') := by
  simp [loadArr, skipWs_cons_nonws c z h1, h2, h3]

theorem loadDict_close (f : Nat) (acc : NodeDict) (z : List Char) :
    loadDict (f + 1) acc ('}' :: z) = .ok (acc, z) := by
  simp [loadDict, skipWs_nonws_head '}' (by decide)]

theorem loadDict_comma (f : Nat) (acc : NodeDict) (z : List Char) :
    loadDict (f + 1) acc (',' :: z) = loadDict f acc z := by
  simp [loadDict, skipWs_nonws_head ',' (by decide)]

theorem loadDict_entry (f : Nat) (acc : NodeDict) (k : List Char) (z : List Char)
    (hk : acc.hasKey k = false) :
    loadDict (f + 1) acc ('"' :: (escapeChars k ++ ('"' :: (':' :: z)))) =
      match loadNode f z with
      | .error e => .error e
      | .ok (v, r3) => loadDict f (acc.insert k v) r3 := by
  simp [loadDict, skipWs_nonws_head '"' (by decide), loadString_escapeChars k,
    skipWs_nonws_head ':' (by decide), hk]

theorem wfL_cons {x : Node} {t : NodeList} (h : wfNodeL (.cons x t) = true) :
    wfNode x = true ∧ wfNodeL t = true := by
  rw [show wfNodeL (NodeList.cons x t) = (wfNode x && wfNodeL t) from rfl,
    Bool.and_eq_true] at h
  exact h

theorem dfL_cons {x : Node} {t : NodeList} (h : doubleFreeL (.cons x t) = true) :
    doubleFree x = true ∧ doubleFreeL t = true := by
  rw [show doubleFreeL (NodeList.cons x t) = (doubleFree x && doubleFreeL t) from rfl,
    Bool.and_eq_true] at h
  exact h

theorem wfD_cons {k : List Char} {v : Node} {t : NodeDict}
    (h : wfNodeD (.cons k v t) = true) :
    wfNode v = true ∧ wfNodeD t = true ∧
      (∀ k' v' t', t = .cons k' v' t' → keyLt k k' = true) := by
  cases t with
  | nil =>
    have h' : (wfNode v && wfNodeD NodeDict.nil && true) = true := h
    rw [Bool.and_eq_true, Bool.and_eq_true] at h'
    exact ⟨h'.1.1, h'.1.2, fun k' v' t' ht => NodeDict.noConfusion ht⟩
  | cons ka va ta =>
    have h' : (wfNode v && wfNodeD (NodeDict.cons ka va ta) && keyLt k ka) = true := h
    rw [Bool.and_eq_true, Bool.and_eq_true] at h'
    refine ⟨h'.1.1, h'.1.2, ?_⟩
    intro k' v' t' ht
    injection ht with h1 _ _
    subst h1
    exact h'.2

theorem dfD_cons {k : List Char} {v : Node} {t : NodeDict}
    (h : doubleFreeD (.cons k v t) = true) :
    doubleFree v = true ∧ doubleFreeD t = true := by
  rw [show doubleFreeD (NodeDict.cons k v t) = (doubleFree v && doubleFreeD t) from rfl,
    Bool.and_eq_true] at h
  exact h

mutual
theorem roundtrip_node : ∀ (v : Node), wfNode v = true → doubleFree v = true →
    ∀ (step indent fuel : Nat) (rest : List Char), goodStop rest → fuelNode v ≤ fuel →
    loadNode fuel (printNode step indent v ++ rest) = .ok (v, rest)
  | .null, hwf, hdf, step, indent, fuel, rest, hr, hfu => by
    obtain ⟨f, rfl⟩ : ∃ f, fuel = f + 1 :=
      ⟨fuel - 1, by have := fuelNode_pos Node.null; omega⟩
    have hp : printNode step indent Node.null = ['n', 'u', 'l', 'l'] := rfl
    rw [hp]
    simp only [List.cons_append, List.nil_append]
    simp [loadNode, skipWs_nonws_head 'n' (by decide), loadNull_literal rest hr]
  | .nbool true, hwf, hdf, step, indent, fuel, rest, hr, hfu => by
    obtain ⟨f, rfl⟩ : ∃ f, fuel = f + 1 :=
      ⟨fuel - 1, by have := fuelNode_pos (Node.nbool true); omega⟩
    have hp : printNode step indent (Node.nbool true) = ['t', 'r', 'u', 'e'] := rfl
    rw [hp]
    simp only [List.cons_append, List.nil_append]
    simp [loadNode, skipWs_nonws_head 't' (by decide), loadBool_true rest hr]
  | .nbool false, hwf, hdf, step, indent, fuel, rest, hr, hfu => by
    obtain ⟨f, rfl⟩ : ∃ f, fuel = f + 1 :=
      ⟨fuel - 1, by have := fuelNode_pos (Node.nbool false); omega⟩
    have hp : printNode step indent (Node.nbool false) = ['f', 'a', 'l', 's', 'e'] := rfl
    rw [hp]
    simp only [List.cons_append, List.nil_append]
    simp [loadNode, skipWs_nonws_head 'f' (by decide), loadBool_false rest hr]
  | .nint n, hwf, hdf, step, indent, fuel, rest, hr, hfu => by
    obtain ⟨f, rfl⟩ : ∃ f, fuel = f + 1 :=
      ⟨fuel - 1, by have := fuelNode_pos (Node.nint n); omega⟩
    have hrange : stoiMin ≤ n ∧ n ≤ stoiMax := by
      simpa [wfNode] using hwf
    have hp : printNode step indent (Node.nint n) = intToChars n := rfl
    have hln := loadNumber_print_int n hrange.1 hrange.2 rest hr
    rw [hp]
    by_cases hneg : n < 0
    · rw [intToChars, if_pos hneg]
      rw [intToChars, if_pos hneg] at hln
      simp only [List.cons_append] at hln ⊢
      simp [loadNode, skipWs_nonws_head '-' (by decide), hln]
    · rw [intToChars, if_neg hneg]
      rw [intToChars, if_neg hneg] at hln
      obtain ⟨hne, hdig, _, _⟩ := natToChars_spec n.natAbs
      cases hds : natToChars n.natAbs with
      | nil => exact absurd hds hne
      | cons d tl =>
        rw [hds] at hln
        have hdd : cIsDigit d = true := hdig d (by rw [hds]; simp)
        obtain ⟨g1, g2, g3, g4, g5, g6, _, _, _, _, g11⟩ := cIsDigit_ne d hdd
        simp only [List.cons_append] at hln ⊢
        simp [loadNode, skipWs_nonws_head d g11, hln, g1, g2, g3, g4, g5, g6]
  | .ndouble q, hwf, hdf, step, indent, fuel, rest, hr, hfu => by
    exact absurd hdf (by simp [doubleFree])
  | .nstr s, hwf, hdf, step, indent, fuel, rest, hr, hfu => by
    obtain ⟨f, rfl⟩ : ∃ f, fuel = f + 1 :=
      ⟨fuel - 1, by have := fuelNode_pos (Node.nstr s); omega⟩
    have hp : printNode step indent (Node.nstr s) = '"' :: (escapeChars s ++ ['"']) := rfl
    rw [hp]
    simp only [List.cons_append, List.append_assoc, List.singleton_append]
    simp [loadNode, skipWs_nonws_head '"' (by decide), loadString_escapeChars s rest,
      Except.map]
  | .narr xs, hwf, hdf, step, indent, fuel, rest, hr, hfu => by
    obtain ⟨f, rfl⟩ : ∃ f, fuel = f + 1 :=
      ⟨fuel - 1, by have := fuelNode_pos (Node.narr xs); omega⟩
    have hwfL : wfNodeL xs = true := hwf
    have hdfL : doubleFreeL xs = true := hdf
    have hfuL : fuelNodeL xs + 1 ≤ f := by
      have he : fuelNode (Node.narr xs) = fuelNodeL xs + 2 := rfl
      omega
    have hp : printNode step indent (Node.narr xs) =
      '[' :: '\n' :: (printArrItems step (step + indent) true xs ++
        '\n' :: (List.replicate indent ' ' ++ [']'])) := rfl
    rw [hp]
    simp only [List.cons_append, List.append_assoc, List.singleton_append,
      List.nil_append]
    rw [loadNode_open_bracket]
    cases xs with
    | nil =>
      obtain ⟨f', rfl⟩ : ∃ f', f = f' + 1 := ⟨f - 1, by omega⟩
      have h0 : printArrItems step (step + indent) true NodeList.nil = [] := rfl
      rw [h0, List.nil_append]
      rw [loadArr_skipWs, skipWs_cons_ws _ _ (by decide),
        skipWs_cons_ws _ _ (by decide), skipWs_replicate,
        skipWs_cons_nonws _ _ (by decide)]
      rw [loadArr_close]
      rfl
    | cons x t =>
      obtain ⟨f', rfl⟩ : ∃ f', f = f' + 1 := ⟨f - 1, by
        have he : fuelNodeL (NodeList.cons x t) = fuelNode x + fuelNodeL t + 1 := rfl
        omega⟩
      obtain ⟨hwx, hwt⟩ := wfL_cons hwfL
      obtain ⟨hdx, hdt⟩ := dfL_cons hdfL
      have hfux : fuelNode x ≤ f' ∧ fuelNodeL t + 1 ≤ f' := by
        have he : fuelNodeL (NodeList.cons x t) = fuelNode x + fuelNodeL t + 1 := rfl
        omega
      have h1 : printArrItems step (step + indent) true (NodeList.cons x t) =
          ([] : List Char) ++ List.replicate (step + indent) ' ' ++
          printNode step (step + indent) x ++
          printArrItems step (step + indent) false t := rfl
      rw [h1]
      simp only [List.nil_append, List.append_assoc]
      rw [loadArr_skipWs, skipWs_cons_ws _ _ (by decide), skipWs_replicate]
      obtain ⟨c, cs, hpx, hnws, hne1, hne2, _⟩ :=
        printNode_head step (step + indent) x hdx
      rw [hpx]
      simp only [List.cons_append]
      rw [skipWs_cons_nonws _ _ hnws]
      rw [loadArr_other f' c _ hnws hne1 hne2, ← List.cons_append, ← hpx]
      simp only [roundtrip_node x hwx hdx step (step + indent) f' _
        (goodStop_arrTail step (step + indent) t _) hfux.1,
        roundtrip_arr t hwt hdt step (step + indent) indent f' rest hfux.2]
      rfl
  | .ndict d, hwf, hdf, step, indent, fuel, rest, hr, hfu => by
    obtain ⟨f, rfl⟩ : ∃ f, fuel = f + 1 :=
      ⟨fuel - 1, by have := fuelNode_pos (Node.ndict d); omega⟩
    have hwfD : wfNodeD d = true := hwf
    have hdfD : doubleFreeD d = true := hdf
    have hfuD : fuelNodeD d + 1 ≤ f := by
      have he : fuelNode (Node.ndict d) = fuelNodeD d + 2 := rfl
      omega
    have hp : printNode step indent (Node.ndict d) =
      '{' :: '\n' :: (printDictItems step (step + indent) true d ++
        '\n' :: (List.replicate indent ' ' ++ ['}'])) := rfl
    rw [hp]
    simp only [List.cons_append, List.append_assoc, List.singleton_append,
      List.nil_append]
    rw [loadNode_open_brace]
    cases d with
    | nil =>
      obtain ⟨f', rfl⟩ : ∃ f', f = f' + 1 := ⟨f - 1, by omega⟩
      have h0 : printDictItems step (step + indent) true NodeDict.nil = [] := rfl
      rw [h0, List.nil_append]
      rw [loadDict_skipWs, skipWs_cons_ws _ _ (by decide),
        skipWs_cons_ws _ _ (by decide), skipWs_replicate,
        skipWs_cons_nonws _ _ (by decide)]
      rw [loadDict_close]
      rfl
    | cons k v t =>
      have h1 : printDictItems step (step + indent) true (NodeDict.cons k v t) =
          ([] : List Char) ++ List.replicate (step + indent) ' ' ++ printString k ++
          [':', ' '] ++ printNode step (step + indent) v ++
          printDictItems step (step + indent) false t := rfl
      rw [h1]
      simp only [List.nil_append, List.append_assoc, List.cons_append]
      have hkey := roundtrip_dict_entry k v t hwfD hdfD step (step + indent) indent
        f rest NodeDict.nil (by omega) trivial
      rw [show (NodeDict.nil).appendD (NodeDict.cons k v t) = NodeDict.cons k v t
        from rfl] at hkey
      rw [hkey]
      rfl
termination_by v _ _ _ _ _ _ _ _ => (sizeOf v, 0)

theorem roundtrip_arr : ∀ (xs : NodeList), wfNodeL xs = true → doubleFreeL xs = true →
    ∀ (step inner ind fuel : Nat) (rest : List Char), fuelNodeL xs + 1 ≤ fuel →
    loadArr fuel (printArrItems step inner false xs ++
      '\n' :: (List.replicate ind ' ' ++ ']' :: rest)) = .ok (xs, rest)
  | .nil, hwf, hdf, step, inner, ind, fuel, rest, hfu => by
    obtain ⟨f, rfl⟩ : ∃ f, fuel = f + 1 := ⟨fuel - 1, by omega⟩
    have h0 : printArrItems step inner false NodeList.nil = [] := rfl
    rw [h0, List.nil_append]
    rw [loadArr_skipWs, skipWs_cons_ws _ _ (by decide), skipWs_replicate,
      skipWs_cons_nonws _ _ (by decide)]
    exact loadArr_close f rest
  | .cons x t, hwf, hdf, step, inner, ind, fuel, rest, hfu => by
    obtain ⟨f, rfl⟩ : ∃ f, fuel = f + 1 := ⟨fuel - 1, by omega⟩
    obtain ⟨hwx, hwt⟩ := wfL_cons hwf
    obtain ⟨hdx, hdt⟩ := dfL_cons hdf
    have hfux : fuelNode x ≤ f ∧ fuelNodeL t + 1 ≤ f := by
      have he : fuelNodeL (NodeList.cons x t) = fuelNode x + fuelNodeL t + 1 := rfl
      omega
    have h1 : printArrItems step inner false (NodeList.cons x t) =
        [',', '\n'] ++ List.replicate inner ' ' ++ printNode step inner x ++
        printArrItems step inner false t := rfl
    rw [h1]
    simp only [List.cons_append, List.nil_append, List.append_assoc]
    rw [loadArr_comma]
    rw [loadNode_skipWs, skipWs_cons_ws _ _ (by decide), skipWs_replicate]
    obtain ⟨c, cs, hpx, hnws, _, _, _⟩ := printNode_head step inner x hdx
    rw [hpx]
    simp only [List.cons_append]
    rw [skipWs_cons_nonws _ _ hnws, ← List.cons_append, ← hpx]
    simp only [roundtrip_node x hwx hdx step inner f _
      (goodStop_arrTail step inner t _) hfux.1,
      roundtrip_arr t hwt hdt step inner ind f rest hfux.2]
termination_by xs _ _ _ _ _ _ _ => (sizeOf xs, 0)

theorem roundtrip_dict : ∀ (d : NodeDict), wfNodeD d = true → doubleFreeD d = true →
    ∀ (step inner ind fuel : Nat) (rest : List Char) (acc : NodeDict),
    fuelNodeD d + 1 ≤ fuel → ndBelow acc d →
    loadDict fuel acc (printDictItems step inner false d ++
      '\n' :: (List.replicate ind ' ' ++ '}' :: rest)) = .ok (acc.appendD d, rest)
  | .nil, hwf, hdf, step, inner, ind, fuel, rest, acc, hfu, hb => by
    obtain ⟨f, rfl⟩ : ∃ f, fuel = f + 1 := ⟨fuel - 1, by omega⟩
    have h0 : printDictItems step inner false NodeDict.nil = [] := rfl
    rw [h0, List.nil_append]
    rw [loadDict_skipWs, skipWs_cons_ws _ _ (by decide), skipWs_replicate,
      skipWs_cons_nonws _ _ (by decide)]
    rw [loadDict_close, appendD_nil]
  | .cons k v t, hwf, hdf, step, inner, ind, fuel, rest, acc, hfu, hb => by
    obtain ⟨f, rfl⟩ : ∃ f, fuel = f + 1 := ⟨fuel - 1, by omega⟩
    have h1 : printDictItems step inner false (NodeDict.cons k v t) =
        [',', '\n'] ++ List.replicate inner ' ' ++ printString k ++ [':', ' '] ++
        printNode step inner v ++ printDictItems step inner false t := rfl
    rw [h1]
    simp only [List.cons_append, List.nil_append, List.append_assoc]
    rw [loadDict_comma]
    exact roundtrip_dict_entry k v t hwf hdf step inner ind f rest acc (by
      have he : fuelNodeD (NodeDict.cons k v t) = fuelNode v + fuelNodeD t + 1 := rfl
      omega) hb
termination_by d _ _ _ _ _ _ _ _ _ _ => (sizeOf d, 1)

theorem roundtrip_dict_entry : ∀ (k : List Char) (v : Node) (t : NodeDict),
    wfNodeD (.cons k v t) = true → doubleFreeD (.cons k v t) = true →
    ∀ (step inner ind fuel : Nat) (rest : List Char) (acc : NodeDict),
    fuelNodeD (.cons k v t) ≤ fuel → ndBelow acc (.cons k v t) →
    loadDict fuel acc ('\n' :: (List.replicate inner ' ' ++ (printString k ++
      (':' :: ' ' :: (printNode step inner v ++ (printDictItems step inner false t ++
        '\n' :: (List.replicate ind ' ' ++ '}' :: rest))))))) =
      .ok (acc.appendD (.cons k v t), rest)
  | k, v, t, hwf, hdf, step, inner, ind, fuel, rest, acc, hfu, hb => by
    obtain ⟨f, rfl⟩ : ∃ f, fuel = f + 1 := ⟨fuel - 1, by
      have he : fuelNodeD (NodeDict.cons k v t) = fuelNode v + fuelNodeD t + 1 := rfl
      have := fuelNode_pos v
      omega⟩
    obtain ⟨hwv, hwft, hklt⟩ := wfD_cons hwf
    obtain ⟨hdv, hdt⟩ := dfD_cons hdf
    have hfuv : fuelNode v ≤ f ∧ fuelNodeD t + 1 ≤ f := by
      have he : fuelNodeD (NodeDict.cons k v t) = fuelNode v + fuelNodeD t + 1 := rfl
      have := fuelNode_pos v
      omega
    have hallLt : acc.allLt k := hb
    rw [loadDict_skipWs, skipWs_cons_ws _ _ (by decide), skipWs_replicate]
    have hps : printString k ++ (':' :: ' ' :: (printNode step inner v ++
        (printDictItems step inner false t ++ '\n' :: (List.replicate ind ' ' ++
          '}' :: rest)))) = '"' :: (escapeChars k ++ ('"' :: (':' :: (' ' ::
        (printNode step inner v ++ (printDictItems step inner false t ++
          '\n' :: (List.replicate ind ' ' ++ '}' :: rest))))))) := by
      rw [show printString k = '"' :: (escapeChars k ++ ['"']) from rfl]
      simp only [List.cons_append, List.append_assoc, List.singleton_append,
        List.nil_append]
    rw [hps, skipWs_cons_nonws _ _ (by decide)]
    rw [loadDict_entry f acc k _ (hasKey_false_of_allLt acc k hallLt)]
    rw [loadNode_skipWs, skipWs_cons_ws _ _ (by decide)]
    obtain ⟨c, cs, hpv, hnws, _, _, _⟩ := printNode_head step inner v hdv
    rw [hpv]
    simp only [List.cons_append]
    rw [skipWs_cons_nonws _ _ hnws, ← List.cons_append, ← hpv]
    simp only [roundtrip_node v hwv hdv step inner f _
      (goodStop_dictTail step inner t _) hfuv.1]
    rw [insert_eq_appendD acc k v hallLt]
    have hbt : ndBelow (acc.appendD (.cons k v .nil)) t := by
      cases t with
      | nil => trivial
      | cons k' v' t' =>
        have hkk' : keyLt k k' = true := hklt k' v' t' rfl
        exact allLt_appendD acc k v k' (allLt_of_lt acc k k' hallLt hkk') hkk'
    rw [roundtrip_dict t hwft hdt step inner ind f rest
      (acc.appendD (.cons k v .nil)) hfuv.2 hbt]
    rw [appendD_assoc]
    rfl
termination_by k v t _ _ _ _ _ _ _ _ _ _ =>
  (sizeOf (NodeDict.cons k v t), 0)
end

theorem fuel_le_len_scalar (v : Node) (step indent : Nat)
    (hdf : doubleFree v = true) (h1 : fuelNode v = 1) :
    fuelNode v ≤ 2 * (printNode step indent v).length := by
  obtain ⟨c, cs, hp, _⟩ := printNode_head step indent v hdf
  rw [hp, h1]
  simp
  omega

mutual
theorem fuel_le_len : ∀ (v : Node) (step indent : Nat), 1 ≤ step →
    doubleFree v = true → fuelNode v ≤ 2 * (printNode step indent v).length
  | .null, step, indent, _, hdf => fuel_le_len_scalar _ step indent hdf rfl
  | .nbool b, step, indent, _, hdf => fuel_le_len_scalar _ step indent hdf rfl
  | .nint n, step, indent, _, hdf => fuel_le_len_scalar _ step indent hdf rfl
  | .ndouble q, step, indent, _, hdf => fuel_le_len_scalar _ step indent hdf rfl
  | .nstr s, step, indent, _, hdf => fuel_le_len_scalar _ step indent hdf rfl
  | .narr xs, step, indent, hs, hdf => by
    have hdfL : doubleFreeL xs = true := hdf
    have hp : printNode step indent (Node.narr xs) =
      '[' :: '\n' :: (printArrItems step (step + indent) true xs ++
        '\n' :: (List.replicate indent ' ' ++ [']'])) := rfl
    rw [hp]
    have hL := fuelL_le_len xs step (step + indent) true hs (by omega) hdfL
    have he : fuelNode (Node.narr xs) = fuelNodeL xs + 2 := rfl
    rw [he]
    simp only [List.length_cons, List.length_append, List.length_replicate,
      List.length_singleton]
    omega
  | .ndict d, step, indent, hs, hdf => by
    have hdfD : doubleFreeD d = true := hdf
    have hp : printNode step indent (Node.ndict d) =
      '{' :: '\n' :: (printDictItems step (step + indent) true d ++
        '\n' :: (List.replicate indent ' ' ++ ['}'])) := rfl
    rw [hp]
    have hD := fuelD_le_len d step (step + indent) true hs (by omega) hdfD
    have he : fuelNode (Node.ndict d) = fuelNodeD d + 2 := rfl
    rw [he]
    simp only [List.length_cons, List.length_append, List.length_replicate,
      List.length_singleton]
    omega

theorem fuelL_le_len : ∀ (xs : NodeList) (step inner : Nat) (first : Bool),
    1 ≤ step → 1 ≤ inner → doubleFreeL xs = true →
    fuelNodeL xs ≤ 2 * (printArrItems step inner first xs).length + 1
  | .nil, step, inner, first, _, _, _ => by
    have he : fuelNodeL NodeList.nil = 0 := rfl
    rw [he]
    omega
  | .cons x t, step, inner, first, hs, hi, hdf => by
    obtain ⟨hdx, hdt⟩ := dfL_cons hdf
    have h1 : printArrItems step inner first (NodeList.cons x t) =
        (if first then [] else [',', '\n']) ++ List.replicate inner ' ' ++
        printNode step inner x ++ printArrItems step inner false t := rfl
    rw [h1]
    have hx := fuel_le_len x step inner hs hdx
    have ht := fuelL_le_len t step inner false hs hi hdt
    have he : fuelNodeL (NodeList.cons x t) = fuelNode x + fuelNodeL t + 1 := rfl
    rw [he]
    cases first <;>
      simp only [if_true, if_false, Bool.false_eq_true, List.length_append,
        List.length_replicate, List.length_cons, List.length_nil, ite_true,
        ite_false] <;>
      omega

theorem fuelD_le_len : ∀ (d : NodeDict) (step inner : Nat) (first : Bool),
    1 ≤ step → 1 ≤ inner → doubleFreeD d = true →
    fuelNodeD d ≤ 2 * (printDictItems step inner first d).length + 1
  | .nil, step, inner, first, _, _, _ => by
    have he : fuelNodeD NodeDict.nil = 0 := rfl
    rw [he]
    omega
  | .cons k v t, step, inner, first, hs, hi, hdf => by
    obtain ⟨hdv, hdt⟩ := dfD_cons hdf
    have h1 : printDictItems step inner first (NodeDict.cons k v t) =
        (if first then [] else [',', '\n']) ++ List.replicate inner ' ' ++
        printString k ++ [':', ' '] ++ printNode step inner v ++
        printDictItems step inner false t := rfl
    rw [h1]
    have hv := fuel_le_len v step inner hs hdv
    have ht := fuelD_le_len t step inner false hs hi hdt
    have he : fuelNodeD (NodeDict.cons k v t) = fuelNode v + fuelNodeD t + 1 := rfl
    rw [he]
    cases first <;>
      simp only [if_true, if_false, Bool.false_eq_true, List.length_append,
        List.length_replicate, List.length_cons, List.length_nil, ite_true,
        ite_false] <;>
      omega
end

/-- **C1, counterexample.** The claim's round trip fails on doubles:
`"3.0"` parses to `Double 3.0` (so the value is grammar-constructible),
yet printing it yields the text `3`, which reparses as `Int 3` — a Value
not structurally equal to the original. -/
theorem C1_counterexample :
    loadStr "3.0" = .ok (.ndouble ⟨3, 0⟩) ∧
    load (printDoc (.ndouble ⟨3, 0⟩)) = .ok (.nint 3) ∧
    Node.nint 3 ≠ Node.ndouble ⟨3, 0⟩ :=
  ⟨rfl, rfl, fun h => Node.noConfusion h⟩

/-- **C1, amended.** The round trip `parse (print v) = v` holds for every
grammar-constructible Value `v` that contains no `Double` case (ints in
the 32-bit `int` range, objects strictly key-sorted): for Doubles the
printer's default stream formatting loses the case distinction
(`Double 3.0` prints as `3` and reparses as `Int 3`). -/
theorem C1_amended (v : Node) (h1 : wfNode v = true) (h2 : doubleFree v = true) :
    load (printDoc v) = .ok v := by
  have hlen : fuelNode v ≤ 2 * (printDoc v).length + 2 := by
    have := fuel_le_len v 4 0 (by omega) h2
    rw [printDoc]
    omega
  have hrt := roundtrip_node v h1 h2 4 0 (2 * (printDoc v).length + 2) []
    trivial hlen
  rw [List.append_nil] at hrt
  rw [load]
  rw [show printNode 4 0 v = printDoc v from rfl] at hrt
  rw [hrt]
  rfl

/-- Witness for `C1_amended`: the round trip at
`[1, "two", {"three": null}]`. -/
theorem C1_amended_witness :
    wfNode (.narr (.cons (.nint 1) (.cons (.nstr "two".toList)
      (.cons (.ndict (.cons "three".toList .null .nil)) .nil)))) = true ∧
    doubleFree (.narr (.cons (.nint 1) (.cons (.nstr "two".toList)
      (.cons (.ndict (.cons "three".toList .null .nil)) .nil)))) = true ∧
    load (printDoc (.narr (.cons (.nint 1) (.cons (.nstr "two".toList)
      (.cons (.ndict (.cons "three".toList .null .nil)) .nil))))) =
      .ok (.narr (.cons (.nint 1) (.cons (.nstr "two".toList)
        (.cons (.ndict (.cons "three".toList .null .nil)) .nil)))) :=
  ⟨rfl, rfl,
   C1_amended (.narr (.cons (.nint 1) (.cons (.nstr "two".toList)
     (.cons (.ndict (.cons "three".toList .null .nil)) .nil)))) rfl rfl⟩

end PayGo
